import Mathlib

set_option exponentiation.threshold 4000

/-!
# Verification of the pgxport streaming export pipeline

A shallow embedding, in Lean 4, of the core of the `pgxport` exporter:
the type-driven value formatter (`core/formatters/formatting.go`), the
order-preserving row encoders (`core/encoders`), the per-format exporters
(CSV, JSON, XML, YAML, SQL, XLSX, Template), the zip entry naming of the
output-sink factory (`core/output/zip.go`) and the exporter registry
(`core/exporters/registry.go`).

Go strings are modelled as Lean `String`s; Go byte slices by their decoded
text; `interface{}` values by the closed inductive `GoValue`; machine
floating point (`float64`) by the exact rational value of the IEEE-754
binary64 datum, with rounding made explicit (`roundB64`).  Fallible Go
functions return `Option`/`Except`.  All definitions are executable.
-/

namespace Pgxport

/-! ## String primitives (models of Go `strings`/`path/filepath` functions) -/

/-- ASCII lowercasing of one character.  Models the effect of Go
`strings.ToLower` on ASCII input (the inputs exercised here are ASCII;
full Unicode case mapping is not modelled). -/
def lowerChar (c : Char) : Char :=
  if 'A' ≤ c ∧ c ≤ 'Z' then Char.ofNat (c.toNat + 32) else c

/-- Model of Go `strings.ToLower` (ASCII fragment). -/
def toLowerStr (s : String) : String := ⟨s.data.map lowerChar⟩

/-- The white-space set of Go `unicode.IsSpace` restricted to the code
points that can occur in this development (ASCII white space). -/
def goIsSpace (c : Char) : Bool :=
  c = ' ' ∨ c = '\t' ∨ c = '\n' ∨ c = (Char.ofNat 11) ∨ c = (Char.ofNat 12) ∨ c = '\r'

/-- Model of Go `strings.TrimSpace`. -/
def trimSpaceStr (s : String) : String :=
  ⟨((s.data.dropWhile goIsSpace).reverse.dropWhile goIsSpace).reverse⟩

/-- Model of Go `strings.HasSuffix`. -/
def hasSuffixStr (s suffix : String) : Bool :=
  suffix.data.isSuffixOf s.data

/-- Model of Go `strings.TrimSuffix`. -/
def trimSuffixStr (s suffix : String) : String :=
  if hasSuffixStr s suffix then ⟨s.data.take (s.data.length - suffix.data.length)⟩ else s

/-- Model of Go `path/filepath.Base` (with `/` as separator): the last
element of the path after removing trailing separators; `"."` for the
empty path, `"/"` when the path is all separators. -/
def filepathBase (p : String) : String :=
  if p = "" then "."
  else
    let rev := p.data.reverse.dropWhile (· = '/')
    if rev = [] then "/"
    else ⟨(rev.takeWhile (· ≠ '/')).reverse⟩

/-- First index (0-based) at which `pat` occurs in `hay`, scanning for the
leftmost occurrence; `none` when absent.  Used to model Go
`strings.Index`-style searches. -/
def firstIndexOf (hay pat : List Char) : Option ℕ :=
  ((List.range (hay.length + 1)).filter (fun i => pat.isPrefixOf (hay.drop i))).head?

/-- Model of Go `strings.LastIndex`: the start index of the rightmost
occurrence of `pat` in `hay`, `none` when `pat` does not occur
(Go returns `-1`). -/
def lastIndexOf (hay pat : List Char) : Option ℕ :=
  ((List.range (hay.length + 1)).filter (fun i => pat.isPrefixOf (hay.drop i))).getLast?

/-! ## Zip entry naming (`core/output/zip.go`, `determineZipEntryName`) -/

/-- Translation of `determineZipEntryName` from `core/output/zip.go`:
lower-case the base file name, strip a `.zip` suffix, fall back to
`export` when empty, and append the format's extension unless it is
already the suffix or the format is `template`. -/
def determineZipEntryName (outputPath format : String) : String :=
  let base := filepathBase outputPath
  let lowerBase := toLowerStr base
  let name := trimSuffixStr lowerBase ".zip"
  let name := if name = "" then "export" else name
  if ¬ (hasSuffixStr name ("." ++ format) = true) ∧ format ≠ "template" then
    name ++ "." ++ format
  else name

/-! ## Exporter registry (`core/exporters/registry.go`) -/

/-- Normalisation applied by `Register` in `registry.go`:
`format = strings.ToLower(strings.TrimSpace(format))`. -/
def normalizeFormat (s : String) : String := toLowerStr (trimSpaceStr s)

/-- The registry is a `name → factory` map, modelled as an association
list (insertion order is irrelevant to lookup).  `α` stands for the
factory type. -/
abbrev Registry (α : Type) : Type := List (String × α)

/-- Translation of `Register`: normalise the name, fail (`none`) when
already present, otherwise insert.  Go returns an `error`; `Option`
models it. -/
def registerFormat {α : Type} (reg : Registry α) (format : String) (factory : α) :
    Option (Registry α) :=
  let f := normalizeFormat format
  if (reg.lookup f).isSome then none
  else some (reg ++ [(f, factory)])

/-- Translation of `Get`: a plain map lookup, with **no** normalisation of
the queried name. -/
def getFormat {α : Type} (reg : Registry α) (format : String) : Option α :=
  reg.lookup format


/-! ## IEEE-754 binary64 model

A `float64` is modelled by the exact rational value of the datum.
`roundB64` is round-to-nearest, ties-to-even, onto 53 significand bits
(the normal range; overflow and subnormals do not arise for the values
considered here).  `%.15g` rendering and `strconv.ParseFloat` are
modelled on top of it. -/

/-- Round the non-negative fraction `N / D` to an integer, half to even
(the IEEE-754 default rounding, also used by Go `strconv`). -/
def rheNat (N D : ℕ) : ℕ :=
  let f := N / D
  let r2 := 2 * (N % D)
  if r2 < D then f
  else if D < r2 then f + 1
  else if f % 2 = 0 then f else f + 1

/-- One step of the shallow base-2 logarithm cascade: extend `k` by `j`
when `2 ^ (k + j) ≤ n`. -/
def log2Step (n k j : ℕ) : ℕ :=
  if Nat.pow 2 (k + j) ≤ n then k + j else k

/-- The largest `k` with `2 ^ k ≤ n` (for `1 ≤ n < 2 ^ 2048`), computed by
a fixed cascade of doubling steps so reduction stays shallow. -/
def floorLog2Nat (n : ℕ) : ℕ :=
  let k := log2Step n 0 1024
  let k := log2Step n k 512
  let k := log2Step n k 256
  let k := log2Step n k 128
  let k := log2Step n k 64
  let k := log2Step n k 32
  let k := log2Step n k 16
  let k := log2Step n k 8
  let k := log2Step n k 4
  let k := log2Step n k 2
  log2Step n k 1

/-- The largest `k` with `10 ^ k ≤ n` (for `n ≥ 1`): a lower estimate from
the base-2 logarithm (`log10 2 > 0.30102`), corrected upward by direct
comparison. -/
def floorLog10Nat (n : ℕ) : ℕ :=
  let k0 := (floorLog2Nat n * 30102) / 100000
  if Nat.pow 10 (k0 + 3) ≤ n then k0 + 3
  else if Nat.pow 10 (k0 + 2) ≤ n then k0 + 2
  else if Nat.pow 10 (k0 + 1) ≤ n then k0 + 1
  else k0

/-- `floorLogNat b n` for the two bases in use. -/
def floorLogNat (b n : ℕ) : ℕ :=
  if b = 2 then floorLog2Nat n else floorLog10Nat n

/-- The base-`b` exponent of a non-zero rational: the largest `e` with
`b ^ e ≤ |q|`.  For `|q| ≥ 1` this is the exponent of the integer part;
for `|q| < 1` it is `-k` for the smallest `k` with `den ≤ num · b ^ k`. -/
def floorLogQ (b : ℕ) (q : ℚ) : ℤ :=
  let n := q.num.natAbs
  let d := q.den
  if d ≤ n then (floorLogNat b (n / d) : ℤ)
  else
    let k0 := floorLogNat b (d / n)
    let k :=
      (if d ≤ n * Nat.pow b k0 then k0
       else if d ≤ n * Nat.pow b (k0 + 1) then k0 + 1
       else if d ≤ n * Nat.pow b (k0 + 2) then k0 + 2
       else k0 + 3);
    -(k : ℤ)

/-- Scaling step shared by `roundB64` and `sig15`: the numerator/denominator
pair of `|q| · b ^ (p - e)` (all in `ℕ`). -/
def scaleShift (b : ℕ) (p e : ℤ) (n d : ℕ) : ℕ × ℕ :=
  if e ≤ p then (n * Nat.pow b (p - e).toNat, d)
  else (n, d * Nat.pow b (e - p).toNat)

/-- Assemble `sgn · m · b ^ (e - p)` as a rational. -/
def assembleScaled (b : ℕ) (p e : ℤ) (neg : Bool) (m : ℕ) : ℚ :=
  let num : ℤ := if neg then -(m : ℤ) else (m : ℤ)
  if p ≤ e then mkRat (num * ((Nat.pow b (e - p).toNat : ℕ) : ℤ)) 1
  else mkRat num (Nat.pow b (p - e).toNat)

/-- Round a rational to the nearest IEEE-754 binary64 value (normal
range, ties to even): scale `|q|` into `[2^52, 2^53)`, round the
significand half-to-even, reattach the exponent and the sign. -/
def roundB64 (q : ℚ) : ℚ :=
  if q = 0 then 0
  else
    let e := floorLogQ 2 q
    let (N, D) := scaleShift 2 52 e q.num.natAbs q.den
    assembleScaled 2 52 e (q.num < 0) (rheNat N D)

/-- Exact rational addition written out on numerators and denominators
(definitionally transparent, unlike `Rat.add`). -/
def ratAddExact (a b : ℚ) : ℚ :=
  mkRat (a.num * (b.den : ℤ) + b.num * (a.den : ℤ)) (a.den * b.den)

/-- The float64 value of the Go expression `0.1 + 0.2`: both literals are
rounded to binary64 and the exact sum is rounded again (one IEEE
addition). -/
def pointOnePlusPointTwo : ℚ :=
  roundB64 (ratAddExact (roundB64 (mkRat 1 10)) (roundB64 (mkRat 2 10)))

/-- Decimal rounding to 15 significant digits, half to even — the value
content of Go `%.15g` formatting.  Returns the rounded significand (an
integer in `[10^14, 10^15)`) and the decimal exponent of the leading
digit. -/
def sig15 (q : ℚ) : ℕ × ℤ :=
  let e0 := floorLogQ 10 q
  let (N, D) := scaleShift 10 14 e0 q.num.natAbs q.den
  let m0 := rheNat N D
  if m0 = 1000000000000000 then (100000000000000, e0 + 1) else (m0, e0)

/-- The exact rational value denoted by the `%.15g` output for `q`
(sign · significand · 10^(e-14)). -/
def sig15Val (q : ℚ) : ℚ :=
  if q = 0 then 0
  else
    let (m, e) := sig15 q
    assembleScaled 10 14 e (q.num < 0) m

/-- Strip trailing `'0'` characters (the `%g` trailing-zero removal). -/
def stripTrailingZeros (s : String) : String :=
  ⟨(s.data.reverse.dropWhile (· = '0')).reverse⟩

/-- Left-pad a numeral with `'0'` to width `w`. -/
def padZeros (w : ℕ) (s : String) : String :=
  ⟨List.replicate (w - s.data.length) '0' ++ s.data⟩

/-- Fixed-notation placement of the decimal point: `ds` is the digit
string (trailing zeros stripped, leading digit non-zero) and `e` the
decimal exponent of its first digit. -/
def fixedNotation (ds : String) (e : ℤ) : String :=
  if e < 0 then
    "0." ++ ⟨List.replicate (e.natAbs - 1) '0'⟩ ++ ds
  else
    let k := e.toNat + 1
    let ipart : List Char := ds.data.take k ++ List.replicate (k - ds.data.length) '0'
    let frac : List Char := ds.data.drop k
    if frac = [] then ⟨ipart⟩ else ⟨ipart⟩ ++ "." ++ ⟨frac⟩

/-- Scientific-notation rendering `d.ddd…e±XX` used by `%g` outside the
fixed range (exponent printed with at least two digits, as Go does). -/
def sciNotation (ds : String) (e : ℤ) : String :=
  let mant := match ds.data with
    | [] => "0"
    | d :: rest => if rest = [] then ⟨[d]⟩ else ⟨[d]⟩ ++ "." ++ ⟨rest⟩
  mant ++ "e" ++ (if e < 0 then "-" else "+") ++ padZeros 2 (toString e.natAbs)

/-- Model of Go `fmt.Sprintf("%.15g", v)`: round to 15 significant
digits, strip trailing zeros, and use fixed notation when the decimal
exponent lies in `[-4, 15)`, scientific notation otherwise. -/
def formatFloat15g (q : ℚ) : String :=
  if q = 0 then "0"
  else
    let sgn := if q < 0 then "-" else ""
    let (m, e) := sig15 q
    let ds := stripTrailingZeros (toString m)
    if -4 ≤ e ∧ e < 15 then sgn ++ fixedNotation ds e
    else sgn ++ sciNotation ds e

/-- Numeric value of a digit list (most significant first). -/
def digitsToNat (l : List Char) : ℕ :=
  l.foldl (fun a c => a * 10 + (c.toNat - 48)) 0

def isDigitChar (c : Char) : Bool := '0' ≤ c ∧ c ≤ '9'

/-- Model of Go `strconv.ParseFloat(s, 64)`: parse the decimal literal
exactly, then correctly round to the nearest binary64 value.  Returns
`none` on a malformed literal. -/
def parseGoFloat (s : String) : Option ℚ :=
  let l := s.data
  let (neg, l) : Bool × List Char := match l with
    | '-' :: rest => (true, rest)
    | '+' :: rest => (false, rest)
    | _ => (false, l)
  let ip := l.takeWhile isDigitChar
  let l := l.dropWhile isDigitChar
  let (fp, l) : List Char × List Char := match l with
    | '.' :: rest => (rest.takeWhile isDigitChar, rest.dropWhile isDigitChar)
    | _ => ([], l)
  let (expOk, ex, l) : Bool × ℤ × List Char := match l with
    | 'e' :: rest | 'E' :: rest =>
        let (esgn, rest) : ℤ × List Char := match rest with
          | '-' :: r => (-1, r)
          | '+' :: r => (1, r)
          | _ => (1, rest)
        let ed := rest.takeWhile isDigitChar
        (ed ≠ [], esgn * (digitsToNat ed : ℤ), rest.dropWhile isDigitChar)
    | _ => (true, 0, l)
  if l = [] ∧ expOk ∧ (ip ≠ [] ∨ fp ≠ []) then
    let M := digitsToNat (ip ++ fp)
    let ee : ℤ := ex - fp.length
    let num : ℤ := if neg then -(M : ℤ) else (M : ℤ)
    let v : ℚ :=
      if 0 ≤ ee then mkRat (num * ((Nat.pow 10 ee.toNat : ℕ) : ℤ)) 1
      else mkRat num (Nat.pow 10 (-ee).toNat)
    some (roundB64 v)
  else none

/-! ## Wire-type identifiers (the pgtype OID constants used by the code) -/

def boolOID : ℕ := 16
def byteaOID : ℕ := 17
def int4OID : ℕ := 23
def jsonOID : ℕ := 114
def float8OID : ℕ := 701
def dateOID : ℕ := 1082
def timestampOID : ℕ := 1114
def timestamptzOID : ℕ := 1184
def intervalOID : ℕ := 1186
def numericOID : ℕ := 1700
def uuidOID : ℕ := 2950
def jsonbOID : ℕ := 3802

/-! ## Time values and layouts

`time.Time` is modelled by its wall-clock fields (no sub-second part, no
zone; the millisecond token `.000` in a layout therefore always renders
as literal zeros, which agrees with Go for whole-second times, and zone
conversion is modelled as the identity — no claim depends on either). -/

structure GoTime where
  year : ℕ
  month : ℕ
  day : ℕ
  hour : ℕ
  minute : ℕ
  second : ℕ
deriving DecidableEq, Repr

def pad2 (n : ℕ) : String := if n < 10 then "0" ++ toString n else toString n

def pad4 (n : ℕ) : String := padZeros 4 (toString n)

def hour12 (h : ℕ) : ℕ := let r := h % 12; if r = 0 then 12 else r

/-- The replacement table of `timeFormatReplacer` in `formatting.go`, in
source order (`yyyy, yy, MM, dd, HH, mm, ss, SSS, S`). -/
def timeFormatPairs : List (String × String) :=
  [("yyyy", "2006"), ("yy", "06"), ("MM", "01"), ("dd", "02"),
   ("HH", "15"), ("mm", "04"), ("ss", "05"), ("SSS", "000"), ("S", "0")]

/-- The first replacer pattern (in argument order, as Go
`strings.NewReplacer` resolves same-position candidates) matching at the
head of `hay`. -/
def findReplacement (hay : List Char) : Option (String × String) :=
  timeFormatPairs.find? (fun p => p.1.data.isPrefixOf hay)

/-- Left-to-right, non-overlapping replacement scan of Go
`strings.Replacer.Replace`; `fuel` bounds the recursion (one character or
pattern is consumed per step). -/
def replaceTokens : ℕ → List Char → List Char
  | 0, _ => []
  | _ + 1, [] => []
  | fuel + 1, c :: rest =>
      match findReplacement (c :: rest) with
      | some (pat, rep) => rep.data ++ replaceTokens fuel ((c :: rest).drop pat.data.length)
      | none => c :: replaceTokens fuel rest

/-- Translation of `ConvertUserTimeFormat`: rewrite the user tokens to Go
reference-time tokens. -/
def ConvertUserTimeFormat (userTimefmt : String) : String :=
  ⟨replaceTokens userTimefmt.data.length userTimefmt.data⟩

/-- The date tokens searched by `extractUserDateFormat`, in source order. -/
def dateTokens : List String := ["yyyy", "yy", "MM", "dd"]

/-- The end position (index just after the match) of the rightmost
occurrence of each date token, maximised over the tokens — the `last`
variable of `extractUserDateFormat` (`none` models Go's `-1`). -/
def latestDateTokenEnd (userFmt : String) : Option ℕ :=
  dateTokens.foldl (fun last tok =>
    match lastIndexOf userFmt.data tok.data with
    | some idx =>
        let e := idx + tok.data.length
        match last with
        | some l => if e > l then some e else some l
        | none => some e
    | none => last) none

/-- Translation of `extractUserDateFormat` from `formatting.go`: truncate
the layout just after the latest date-token match, then `TrimSpace`;
return the layout unchanged when no date token occurs. -/
def extractUserDateFormat (userFmt : String) : String :=
  match latestDateTokenEnd userFmt with
  | none => userFmt
  | some last => trimSpaceStr ⟨userFmt.data.take last⟩

/-- The date-token portion as the specification words it: locate the
rightmost occurrence of each of `yyyy, yy, MM, dd` and truncate the
layout immediately after the latest such match, with no further
adjustment.  Stated from the claim text, for comparison with
`extractUserDateFormat` (which additionally trims white space). -/
def specDateTokenPortion (userFmt : String) : String :=
  match latestDateTokenEnd userFmt with
  | none => userFmt
  | some last => ⟨userFmt.data.take last⟩

/-- Model of Go `time.Time.Format` for the reference-token fragment that
converted layouts contain (`2006`, `06`, `01`–`06`, `15`); all other
characters are literal.  (Go additionally recognises single-digit
unpadded tokens, which no converted layout produces.) -/
def goFormatTime (t : GoTime) : ℕ → List Char → String
  | 0, _ => ""
  | _ + 1, [] => ""
  | fuel + 1, l =>
      match l with
      | [] => ""
      | '2' :: '0' :: '0' :: '6' :: rest => pad4 t.year ++ goFormatTime t fuel rest
      | '0' :: '1' :: rest => pad2 t.month ++ goFormatTime t fuel rest
      | '0' :: '2' :: rest => pad2 t.day ++ goFormatTime t fuel rest
      | '0' :: '3' :: rest => pad2 (hour12 t.hour) ++ goFormatTime t fuel rest
      | '0' :: '4' :: rest => pad2 t.minute ++ goFormatTime t fuel rest
      | '0' :: '5' :: rest => pad2 t.second ++ goFormatTime t fuel rest
      | '0' :: '6' :: rest => pad2 (t.year % 100) ++ goFormatTime t fuel rest
      | '1' :: '5' :: rest => pad2 t.hour ++ goFormatTime t fuel rest
      | c :: rest => ⟨[c]⟩ ++ goFormatTime t fuel rest

def goFormat (layout : String) (t : GoTime) : String :=
  goFormatTime t layout.data.length layout.data

/-- Model of the `t.In(loc)` conversion used for TIMESTAMPTZ values.
Wall-clock zone conversion depends on the IANA zone database (environment
data) and is modelled as the identity; no claim depends on it. -/
def tzConvert (_timeZone : String) (t : GoTime) : GoTime := t

/-! ## Go values (`interface{}` fragment reaching the formatters) -/

inductive GoValue where
  | null
  | str (s : String)
  | intV (n : ℤ)
  | floatV (q : ℚ)
  | boolV (b : Bool)
  | timeV (t : GoTime)
  | bytesV (s : String)
  | uuidV (bytes : List ℕ)
  | numericV (valid : Bool) (value : Option ℚ)
  | intervalV (valid : Bool) (text : String)
  | arrV (elems : List GoValue)
deriving Repr

def hexDigit (n : ℕ) : Char := if n < 10 then Char.ofNat (48 + n) else Char.ofNat (87 + n)

def byteHex (b : ℕ) : String := ⟨[hexDigit (b / 16 % 16), hexDigit (b % 16)]⟩

def bytesHex (l : List ℕ) : String := String.join (l.map byteHex)

/-- The `%x-%x-%x-%x-%x` 8-4-4-4-12 lower-hex rendering of a UUID's 16
bytes used by `formatValueByOID` and `FormatSQLValue`. -/
def uuidFormat (b : List ℕ) : String :=
  bytesHex (b.take 4) ++ "-" ++ bytesHex ((b.drop 4).take 2) ++ "-" ++
    bytesHex ((b.drop 6).take 2) ++ "-" ++ bytesHex ((b.drop 8).take 2) ++ "-" ++
    bytesHex (b.drop 10)

/-- JSON string quoting (the escape fragment exercised here: quote,
backslash and the common control characters). -/
def escapeJsonString (s : String) : String :=
  "\"" ++ String.join (s.data.map (fun c =>
    if c = '"' then "\\\""
    else if c = '\\' then "\\\\"
    else if c = '\n' then "\\n"
    else if c = '\t' then "\\t"
    else if c = '\r' then "\\r"
    else ⟨[c]⟩)) ++ "\""

/-- Model of `encoding/json.Marshal` on scalar `GoValue`s.  Exact for
`null`, strings, integers and booleans (the shapes the claims exercise);
floats use the 15-significant-digit rendering where Go uses the shortest
round-trip digits, times render as RFC3339 without a zone suffix, and the
pgtype struct wrappers — which never reach a JSON marshal in the Go code —
return an error. -/
def goJsonScalar : GoValue → Except String String
  | .null => .ok "null"
  | .str s => .ok (escapeJsonString s)
  | .intV n => .ok (toString n)
  | .floatV q => .ok (formatFloat15g q)
  | .boolV b => .ok (if b then "true" else "false")
  | .timeV t => .ok (escapeJsonString (goFormat "2006-01-02T15:04:05" t))
  | .bytesV s => .ok (escapeJsonString s)
  | .uuidV bytes => .ok ("[" ++ String.intercalate "," (bytes.map toString) ++ "]")
  | .numericV _ _ => .error "unmodelled marshal shape"
  | .intervalV _ _ => .error "unmodelled marshal shape"
  | .arrV _ => .error "nested array"

/-- Error-propagating map over a list (the shape `for … { if err return }`
takes in Go): stops at the first error. -/
def exceptMapList {α β : Type} (f : α → Except String β) : List α → Except String (List β)
  | [] => .ok []
  | a :: rest =>
      match f a with
      | .error e => .error e
      | .ok b =>
          match exceptMapList f rest with
          | .error e => .error e
          | .ok bs => .ok (b :: bs)

/-- Model of `encoding/json.Marshal` (arrays one level deep, as produced
by the driver for generic array columns). -/
def goJsonMarshal : GoValue → Except String String
  | .arrV elems =>
      match exceptMapList goJsonScalar elems with
      | .ok parts => .ok ("[" ++ String.intercalate "," parts ++ "]")
      | .error e => .error e
  | v => goJsonScalar v

/-- Model of Go `fmt.Sprintf("%v", v)` on the scalar fragment reaching
it.  Exact for strings, integers and booleans; floats use the
15-significant-digit rendering where Go uses the shortest round-trip
digits (no claim depends on `%v` of a float). -/
def goVerbScalar : GoValue → String
  | .null => "<nil>"
  | .str s => s
  | .intV n => toString n
  | .floatV q => formatFloat15g q
  | .boolV b => if b then "true" else "false"
  | .timeV t => goFormat "2006-01-02 15:04:05" t
  | .bytesV s => s
  | .uuidV bytes => "[" ++ String.intercalate " " (bytes.map toString) ++ "]"
  | .numericV _ _ => "<numeric>"
  | .intervalV _ _ => "<interval>"
  | .arrV _ => "<array>"

/-- `%v`, with one level of array nesting (arrays of arrays do not occur
in the formatter paths modelled). -/
def goVerb : GoValue → String
  | .arrV elems => "[" ++ String.intercalate " " (elems.map goVerbScalar) ++ "]"
  | v => goVerbScalar v

/-! ## The value formatter (`core/formatters/formatting.go`) -/

/-- Translation of `formatValueByOID`: the central OID-keyed conversion.
`nil` returns `nil` at once; a case whose type assertion fails, and every
unrecognised OID, fall through to `return val`. -/
def formatValueByOID (val : GoValue) (valueType : ℕ) (userTimefmt timeZone : String) :
    GoValue :=
  match val with
  | .null => .null
  | _ =>
    if valueType = dateOID then
      match val with
      | .timeV t =>
          .str (goFormat (ConvertUserTimeFormat (extractUserDateFormat userTimefmt)) t)
      | _ => val
    else if valueType = timestampOID then
      match val with
      | .timeV t => .str (goFormat (ConvertUserTimeFormat userTimefmt) t)
      | _ => val
    else if valueType = timestamptzOID then
      match val with
      | .timeV t => .str (goFormat (ConvertUserTimeFormat userTimefmt) (tzConvert timeZone t))
      | _ => val
    else if valueType = uuidOID then
      match val with
      | .uuidV b => .str (uuidFormat b)
      | _ => val
    else if valueType = byteaOID then
      match val with
      | .bytesV s => .str s
      | _ => val
    else if valueType = numericOID then
      match val with
      | .numericV valid value =>
          if valid = false then .null
          else
            match value with
            | none => .null
            | some q => .floatV q
      | _ => val
    else if valueType = intervalOID then
      match val with
      | .intervalV valid text => if valid = false then .null else .str text
      | _ => val
    else val

/-- Translation of `FormatJSONValue`. -/
def FormatJSONValue (val : GoValue) (valueType : ℕ) (userTimefmt timeZone : String) :
    GoValue :=
  formatValueByOID val valueType userTimefmt timeZone

/-- Translation of `FormatYAMLValue`. -/
def FormatYAMLValue (val : GoValue) (valueType : ℕ) (userTimefmt timeZone : String) :
    GoValue :=
  formatValueByOID val valueType userTimefmt timeZone

/-- Translation of `FormatCSVValue`: dispatch through `formatValueByOID`,
`""` for `nil`, `%.15g` for floats, brace-wrapped `%v` items for arrays,
a JSON re-serialisation (with `"{}"` on failure) for JSON/JSONB, `%v`
otherwise. -/
def FormatCSVValue (val : GoValue) (valueType : ℕ) (userTimefmt timeZone : String) :
    String :=
  let result := formatValueByOID val valueType userTimefmt timeZone
  match result with
  | .null => ""
  | .str v => v
  | .floatV v => formatFloat15g v
  | .arrV v =>
      if v.length = 0 then "\x7b\x7d"
      else "\x7b" ++ String.intercalate "," (v.map goVerb) ++ "\x7d"
  | other =>
      if valueType = jsonbOID ∨ valueType = jsonOID then
        match goJsonMarshal other with
        | .ok s => s
        | .error _ => "\x7b\x7d"
      else goVerb other

/-- Translation of `FormatXMLValue` (as `FormatCSVValue`, but a failed
JSON re-serialisation yields `""`). -/
def FormatXMLValue (val : GoValue) (valueType : ℕ) (userTimefmt timeZone : String) :
    String :=
  let result := formatValueByOID val valueType userTimefmt timeZone
  match result with
  | .null => ""
  | .str v => v
  | .floatV v => formatFloat15g v
  | .arrV v =>
      if v.length = 0 then "\x7b\x7d"
      else "\x7b" ++ String.intercalate "," (v.map goVerb) ++ "\x7d"
  | other =>
      if valueType = jsonbOID ∨ valueType = jsonOID then
        match goJsonMarshal other with
        | .ok s => s
        | .error _ => ""
      else goVerb other

/-- The generic tail of `FormatSQLValue` (reached when no OID case
applies or its type assertion fails). -/
def sqlGenericValue (val : GoValue) : String :=
  match val with
  | .intV n => toString n
  | .floatV q => formatFloat15g q
  | .arrV v =>
      if v.length = 0 then "'\x7b\x7d'"
      else "'\x7b" ++ String.intercalate "," (v.map goVerb) ++ "\x7d'"
  | v => "'" ++ String.replace (goVerb v) "'" "''" ++ "'"

/-- Translation of `FormatSQLValue`: `NULL` for `nil`, typed literal
renderings per OID, and the generic quoting tail otherwise. -/
def FormatSQLValue (val : GoValue) (valueType : ℕ) : String :=
  match val with
  | .null => "NULL"
  | _ =>
    if valueType = dateOID then
      match val with
      | .timeV t => "'" ++ goFormat "2006-01-02" t ++ "'::date"
      | _ => sqlGenericValue val
    else if valueType = timestampOID then
      match val with
      | .timeV t => "'" ++ goFormat "2006-01-02 15:04:05.000" t ++ "'::timestamp"
      | _ => sqlGenericValue val
    else if valueType = timestamptzOID then
      match val with
      | .timeV t => "'" ++ goFormat "2006-01-02 15:04:05.000-07" t ++ "'::timestamptz"
      | _ => sqlGenericValue val
    else if valueType = uuidOID then
      match val with
      | .uuidV b => "'" ++ uuidFormat b ++ "'::uuid"
      | _ => sqlGenericValue val
    else if valueType = byteaOID then
      match val with
      | .bytesV s => "'" ++ String.replace s "'" "''" ++ "'::bytea"
      | _ => sqlGenericValue val
    else if valueType = boolOID then
      match val with
      | .boolV b => if b then "true" else "false"
      | _ => sqlGenericValue val
    else if valueType = numericOID then
      match val with
      | .numericV valid value =>
          if valid = false then "NULL"
          else
            match value with
            | none => "NULL"
            | some q => formatFloat15g q
      | _ => sqlGenericValue val
    else if valueType = intervalOID then
      match val with
      | .intervalV valid text =>
          if valid = false then "NULL" else "'" ++ text ++ "'::interval"
      | _ => sqlGenericValue val
    else if valueType = jsonbOID then
      match goJsonMarshal val with
      | .ok s => "'" ++ s ++ "'::jsonb"
      | .error _ => "'\x7b\x7d'::jsonb"
    else if valueType = jsonOID then
      match goJsonMarshal val with
      | .ok s => "'" ++ s ++ "'::json"
      | .error _ => "'\x7b\x7d'::json"
    else sqlGenericValue val

/-- Translation of `FormatXLSXValue`: temporal OIDs pass the raw value
through; JSON/JSONB re-serialise (`"{}"` on failure) — note there is no
`nil` check before this branch; arrays re-serialise to JSON text (`"[]"`
on failure); everything else goes through `formatValueByOID`. -/
def FormatXLSXValue (value : GoValue) (oid : ℕ) (timeFormat timeZone : String) : GoValue :=
  if oid = dateOID ∨ oid = timestampOID ∨ oid = timestamptzOID then value
  else if oid = jsonbOID ∨ oid = jsonOID then
    match goJsonMarshal value with
    | .ok s => .str s
    | .error _ => .str "\x7b\x7d"
  else
    match value with
    | .arrV l =>
        match goJsonMarshal (.arrV l) with
        | .ok b => .str b
        | .error _ => .str "[]"
    | _ => formatValueByOID value oid timeFormat timeZone

/-- Translation of `FormatTemplateValue`. -/
def FormatTemplateValue (val : GoValue) (oid : ℕ) (userTimefmt timeZone : String) :
    GoValue :=
  match val with
  | .null => .null
  | _ =>
    let base := formatValueByOID val oid userTimefmt timeZone
    if oid = jsonbOID ∨ oid = jsonOID then
      match goJsonMarshal base with
      | .ok b => .str b
      | .error _ => .str "\x7b\x7d"
    else
      match base with
      | .arrV arr =>
          match goJsonMarshal (.arrV arr) with
          | .ok b => .str b
          | .error _ => .str "[]"
      | _ => base

/-- Translation of `QuoteIdent`: quote each dot-separated segment,
doubling embedded quotes. -/
def QuoteIdent (s : String) : String :=
  String.intercalate "." ((s.splitOn ".").map
    (fun part => "\"" ++ String.replace part "\"" "\"\"" ++ "\""))

/-- Model of `marshalWithoutHTMLEscape` in `json_encoder.go`: JSON-encode
with HTML escaping disabled and the trailing newline trimmed (the
map-indent branch has no analogue, since the `GoValue` fragment contains
no maps; none of the escape cases modelled involve `<`, `>` or `&`). -/
def marshalNoHTMLEscape (v : GoValue) : Except String String := goJsonMarshal v

/-! ## Ordered maps (elliotchance/orderedmap v3, as used by the encoders) -/

/-- An insertion-ordered `String`-keyed map. -/
structure OMap (β : Type) where
  entries : List (String × β)

/-- Model of `OrderedMap.Set`: an existing key keeps its position and has
its value replaced; a new key is appended at the back. -/
def OMap.set {β : Type} (m : OMap β) (k : String) (v : β) : OMap β :=
  if m.entries.any (fun p => p.1 == k) then
    ⟨m.entries.map (fun p => if p.1 == k then (p.1, v) else p)⟩
  else ⟨m.entries ++ [(k, v)]⟩

/-- The key sequence in insertion order (`AllFromFront`). -/
def OMap.keys {β : Type} (m : OMap β) : List String := m.entries.map (·.1)

/-- `encoders.DataParams`. -/
structure DataParams where
  Value : GoValue
  ValueType : ℕ

/-- A cursor field descriptor: `(Name, DataTypeOID)`. -/
structure FieldDesc where
  Name : String
  DataTypeOID : ℕ

/-- The row-building loop shared by the JSON and YAML exporters:
`for i, fd := range fields { rowData.Set(fd.Name, DataParams{values[i], fd.DataTypeOID}) }`
(the cursor guarantees `values` and `fields` have equal length; `zip`
realises the common prefix). -/
def buildRowData (fields : List FieldDesc) (values : List GoValue) : OMap DataParams :=
  (fields.zip values).foldl
    (fun m fv => m.set fv.1.Name ⟨fv.2, fv.1.DataTypeOID⟩) ⟨[]⟩

/-! ## Ordered row encoders (`core/encoders`) -/

/-- Translation of `OrderedJsonEncoder.EncodeRow`: hand-emitted braces,
indentation and commas, iterating the ordered map from the front. -/
def jsonEncodeRow (timeLayout timezone : String) (rowData : OMap DataParams) :
    Except String String :=
  if rowData.entries.length = 0 then .ok "\x7b\x7d"
  else
    match exceptMapList (fun kv =>
        (match marshalNoHTMLEscape
            (FormatJSONValue kv.2.Value kv.2.ValueType timeLayout timezone) with
        | .ok valueJSON => .ok ("    " ++ escapeJsonString kv.1 ++ ": " ++ valueJSON)
        | .error e => .error ("error marshaling value for key " ++ kv.1 ++ ": " ++ e) :
          Except String String)) rowData.entries with
    | .ok items => .ok ("\x7b\n" ++ String.intercalate ",\n" items ++ "\n  \x7d")
    | .error e => .error e

/-- A yaml.v3 node (the shapes produced by the encoder). -/
inductive YamlNode where
  | scalar (tag value : String)
  | sequence (elems : List YamlNode)
  | mapping (pairs : List (String × YamlNode))
deriving Repr

/-- Model of `yaml.Node.Encode` on scalar values (the yaml.v3 default
encodings; floats rendered with the 15-significant-digit model where the
library uses shortest digits — no claim depends on a float here). -/
def encodeYamlScalar : GoValue → Except String YamlNode
  | .null => .ok (.scalar "!!null" "null")
  | .str s => .ok (.scalar "!!str" s)
  | .intV n => .ok (.scalar "!!int" (toString n))
  | .floatV q => .ok (.scalar "!!float" (formatFloat15g q))
  | .boolV b => .ok (.scalar "!!bool" (if b then "true" else "false"))
  | .timeV t => .ok (.scalar "!!timestamp" (goFormat "2006-01-02T15:04:05" t))
  | .bytesV s => .ok (.scalar "!!str" s)
  | .uuidV bytes => .ok (.sequence (bytes.map (fun b => .scalar "!!int" (toString b))))
  | .numericV _ _ => .error "unmodelled encode shape"
  | .intervalV _ _ => .error "unmodelled encode shape"
  | .arrV _ => .error "nested array"

/-- `yaml.Node.Encode`, with one level of array nesting. -/
def encodeYamlValue : GoValue → Except String YamlNode
  | .arrV elems =>
      match exceptMapList encodeYamlScalar elems with
      | .ok nodes => .ok (.sequence nodes)
      | .error e => .error e
  | v => encodeYamlScalar v

/-- Translation of `OrderedYamlEncoder.EncodeRow`: one mapping node per
row, key scalars in map order, each value encoded via `FormatYAMLValue`. -/
def yamlEncodeRow (timeLayout timezone : String) (rowData : OMap DataParams) :
    Except String YamlNode :=
  match exceptMapList (fun kv =>
      (match encodeYamlValue
          (FormatYAMLValue kv.2.Value kv.2.ValueType timeLayout timezone) with
      | .ok node => .ok (kv.1, node)
      | .error e => .error e : Except String (String × YamlNode))) rowData.entries with
  | .ok pairs => .ok (.mapping pairs)
  | .error e => .error e

/-- The key sequence of a YAML mapping node (empty for non-mappings). -/
def yamlMappingKeys : YamlNode → List String
  | .mapping pairs => pairs.map (·.1)
  | _ => []

/-! ## Per-row output of the remaining exporters -/

/-- One CSV record (`csv_exporter.go`): `record[i] = FormatCSVValue(values[i],
fields[i].DataTypeOID, …)`. -/
def csvRecord (fields : List FieldDesc) (values : List GoValue) (fmt tz : String) :
    List String :=
  (fields.zip values).map (fun fv => FormatCSVValue fv.2 fv.1.DataTypeOID fmt tz)

/-- One XLSX row (`xlsx_exporter.go`): `excelValues[i] =
FormatXLSXValue(values[i], fields[i].DataTypeOID, …)`. -/
def xlsxRowCells (fields : List FieldDesc) (values : List GoValue) (fmt tz : String) :
    List GoValue :=
  (fields.zip values).map (fun fv => FormatXLSXValue fv.2 fv.1.DataTypeOID fmt tz)

/-- The quoted SQL column list (`sql_exporter.go`):
`columns[i] = QuoteIdent(fields[i].Name)`. -/
def sqlColumns (fields : List FieldDesc) : List String :=
  fields.map (fun fd => QuoteIdent fd.Name)

/-- One formatted SQL value row (`sql_exporter.go`). -/
def sqlRecord (fields : List FieldDesc) (values : List GoValue) : List String :=
  (fields.zip values).map (fun fv => FormatSQLValue fv.2 fv.1.DataTypeOID)

/-- A token of the streaming XML writer. -/
inductive XmlToken where
  | startTag (name : String)
  | endTag (name : String)
  | text (escaped : Bool) (content : String)
deriving Repr

/-- The tokens emitted for one field by the XML exporter: an explicit
empty element for `""`, raw unescaped content for values beginning with
a brace or bracket, an escaped element otherwise. -/
def xmlFieldTokens (name : String) (val : String) : List XmlToken :=
  if val = "" then [.startTag name, .endTag name]
  else
    let isJSONLike := val.data.head? = some '\x7b' ∨ val.data.head? = some '['
    if isJSONLike then [.startTag name, .text false val, .endTag name]
    else [.startTag name, .text true val, .endTag name]

/-- The token stream of one XML row (between the row start/end tags):
the exporter iterates the field-name array in field order. -/
def xmlRowTokens (fields : List FieldDesc) (values : List GoValue) (fmt tz : String) :
    List XmlToken :=
  (fields.zip values).flatMap
    (fun fv => xmlFieldTokens fv.1.Name (FormatXMLValue fv.2 fv.1.DataTypeOID fmt tz))

/-- The child-element names opened by a token stream, in order. -/
def xmlStartTags (tokens : List XmlToken) : List String :=
  tokens.filterMap (fun t => match t with | .startTag n => some n | _ => none)

/-- Translation of `buildRow` in the template exporter: an ordered map of
`FormatTemplateValue` results keyed by column name, built with `Set` in
field order. -/
def templateBuildRow (fields : List FieldDesc) (values : List GoValue) (fmt tz : String) :
    OMap GoValue :=
  (fields.zip values).foldl
    (fun m fv => m.set fv.1.Name (FormatTemplateValue fv.2 fv.1.DataTypeOID fmt tz)) ⟨[]⟩

/-! ## SQL batching (`sqlExporter.Export` / `writeBatchInsert`) -/

/-- The batching loop of `sqlExporter.Export`: accumulate rows, flush a
batch whenever it reaches `RowPerStatement`, and flush the final partial
batch after the cursor is exhausted. -/
def sqlBatchesGo {α : Type} (B : ℕ) : List α → List α → List (List α)
  | [], acc => if acc.isEmpty then [] else [acc]
  | r :: rest, acc =>
      let acc2 := acc ++ [r]
      if acc2.length = B then acc2 :: sqlBatchesGo B rest []
      else sqlBatchesGo B rest acc2

/-- One value-row line of `writeBatchInsert`:
`\t(<v1, v2, …>)<sep>\n`. -/
def sqlRowLine (record : List String) (sep : String) : String :=
  "\t(" ++ String.intercalate ", " record ++ ")" ++ sep ++ "\n"

/-- The value-row lines of one statement: separator `","` on every row
except the last, which takes `";"` (the `i == len(rows)-1` test of
`writeBatchInsert`). -/
def sqlValueLines : List (List String) → List String
  | [] => []
  | [r] => [sqlRowLine r ";"]
  | r :: rest => sqlRowLine r "," :: sqlValueLines rest

/-- Translation of `writeBatchInsert` (non-empty batches; the Go function
writes nothing for an empty batch and the exporter never passes one). -/
def writeBatchInsertStr (table : String) (columns : List String)
    (records : List (List String)) : String :=
  "INSERT INTO " ++ QuoteIdent table ++ " (" ++ String.intercalate ", " columns ++
    ") VALUES\n" ++ String.join (sqlValueLines records)

/-- The statements written by one SQL export, in order: one
`writeBatchInsert` per flushed batch. -/
def sqlStatements (table : String) (columns : List String) (B : ℕ)
    (rows : List (List String)) : List String :=
  (sqlBatchesGo B rows []).map (writeBatchInsertStr table columns)

/-! ## XLSX sheet rolling (`xlsxExporter.Export` / `initSheet`) -/

def xlsxMaxRows : ℕ := 1048576

/-- The row loop of `xlsxExporter.Export`, tracking the current sheet:
`currentRow` is the next sheet row to write ( `initSheet` starts it at 1,
or 2 after a header row); before writing, a roll happens whenever
`currentRow > maxRows`; each data row advances `currentRow`.  The result
is the list of per-sheet data-row counts, in sheet order. -/
def xlsxLoop (noHeader : Bool) : ℕ → ℕ → ℕ → List ℕ → List ℕ
  | 0, _, cur, done => (cur :: done).reverse
  | n + 1, currentRow, cur, done =>
      if currentRow > xlsxMaxRows then
        let startRow := if noHeader then 1 else 2
        xlsxLoop noHeader n (startRow + 1) 1 (cur :: done)
      else xlsxLoop noHeader n (currentRow + 1) (cur + 1) done

/-- Per-sheet data-row counts when exporting `n` rows. -/
def xlsxSheetSizes (noHeader : Bool) (n : ℕ) : List ℕ :=
  xlsxLoop noHeader n (if noHeader then 1 else 2) 0 []

/-- Data-row capacity of one sheet: the header, when present, occupies
one of the `maxRows` sheet rows. -/
def xlsxSheetCapacity (noHeader : Bool) : ℕ :=
  if noHeader then xlsxMaxRows else xlsxMaxRows - 1

/-- Specification-side chunking: split `n` into chunks of `cap` with a
final partial chunk (`fuel`-bounded; `fuel = n` always suffices for
`cap ≥ 1`). -/
def chunkSizesAux (cap : ℕ) : ℕ → ℕ → List ℕ
  | 0, n => [n]
  | fuel + 1, n => if n ≤ cap then [n] else cap :: chunkSizesAux cap fuel (n - cap)

def chunkSizes (cap n : ℕ) : List ℕ := chunkSizesAux cap n n

/-! ## Traced exporter control flow (JSON, YAML, SQL)

The cursor is a list of row outcomes; the sink is a write oracle
(`writeOk i` decides the `i`-th write).  The exporters open the sink
once, run their body, and the deferred `Close` runs on every return path
after the successful `CreateWriter` — modelled by appending the close
event to whatever the body produced. -/

inductive RowItem where
  | fetchErr (e : String)
  | encodeErr (e : String)
  | good (payload : String)

inductive SinkEvent where
  | opened
  | wrote
  | closed
deriving DecidableEq, Repr

/-- The row loop of `jsonExporter.Export` (current source): fetch errors
wrap no index; the comma write for row `K`, the encode error for row `K`
and the indentation/object writes for row `K` all use `rowCount`, which
at that point equals `K - 1`.  Returns the result and the number of write
attempts. -/
def jsonRowsLoop (writeOk : ℕ → Bool) : List RowItem → ℕ → ℕ → (Except String ℕ) × ℕ
  | [], rowCount, w => (.ok rowCount, w)
  | item :: rest, rowCount, w =>
      match item with
      | .fetchErr e => (.error ("error reading row: " ++ e), w)
      | .encodeErr e =>
          if 0 < rowCount then
            if writeOk w then
              (.error ("error encoding JSON for row " ++ toString rowCount ++ ": " ++ e),
               w + 1)
            else
              (.error ("error writing comma for row " ++ toString rowCount ++
                 ": write failed"), w + 1)
          else
            (.error ("error encoding JSON for row " ++ toString rowCount ++ ": " ++ e), w)
      | .good _ =>
          if 0 < rowCount then
            if writeOk w then
              if writeOk (w + 1) then
                if writeOk (w + 2) then jsonRowsLoop writeOk rest (rowCount + 1) (w + 3)
                else
                  (.error ("error writing JSON object for row " ++ toString rowCount ++
                     ": write failed"), w + 3)
              else
                (.error ("error writing indentation for row " ++ toString rowCount ++
                   ": write failed"), w + 2)
            else
              (.error ("error writing comma for row " ++ toString rowCount ++
                 ": write failed"), w + 1)
          else
            if writeOk w then
              if writeOk (w + 1) then jsonRowsLoop writeOk rest (rowCount + 1) (w + 2)
              else
                (.error ("error writing JSON object for row " ++ toString rowCount ++
                   ": write failed"), w + 2)
            else
              (.error ("error writing indentation for row " ++ toString rowCount ++
                 ": write failed"), w + 1)

/-- The body of `jsonExporter.Export` after the sink is acquired: the
opening bracket write, the row loop, the terminal cursor check, the
closing bracket write. -/
def jsonBody (writeOk : ℕ → Bool) (items : List RowItem) (terminalErr : Option String) :
    (Except String ℕ) × ℕ :=
  if writeOk 0 then
    match jsonRowsLoop writeOk items 0 1 with
    | (.error e, w) => (.error e, w)
    | (.ok rowCount, w) =>
        match terminalErr with
        | some e => (.error ("error iterating rows: " ++ e), w)
        | none =>
            if writeOk w then (.ok rowCount, w + 1)
            else (.error "error writing end of JSON array: write failed", w + 1)
  else (.error "error writing start of JSON array: write failed", 1)

/-- `jsonExporter.Export` with its sink trace: `CreateWriter` failure
returns before any sink exists; otherwise the sink is opened, the body
runs, and the deferred `Close` fires on every return path. -/
def jsonExportEvents (createOk : Bool) (writeOk : ℕ → Bool) (items : List RowItem)
    (terminalErr : Option String) : (Except String ℕ) × List SinkEvent :=
  if createOk = false then (.error "create failed", [])
  else
    let (res, w) := jsonBody writeOk items terminalErr
    (res, [.opened] ++ List.replicate w .wrote ++ [.closed])

/-- `jsonExporter.Export` as a pure result (all writes succeed). -/
def jsonExportResult (items : List RowItem) (terminalErr : Option String) :
    Except String ℕ :=
  (jsonExportEvents true (fun _ => true) items terminalErr).1

/-- The row loop of `yamlExporter.Export` (current source): fetch and
encode errors both wrap `rowCount + 1`, the 1-based index of the failing
row.  (The single `enc.Encode` write at the end is outside the row loop.) -/
def yamlRowsLoop : List RowItem → ℕ → Except String ℕ
  | [], rowCount => .ok rowCount
  | item :: rest, rowCount =>
      match item with
      | .fetchErr e => .error ("error reading row " ++ toString (rowCount + 1) ++ ": " ++ e)
      | .encodeErr e =>
          .error ("error encoding YAML row " ++ toString (rowCount + 1) ++ ": " ++ e)
      | .good _ => yamlRowsLoop rest (rowCount + 1)

/-- `yamlExporter.Export` as a pure result. -/
def yamlExportResult (items : List RowItem) (terminalErr : Option String) :
    Except String ℕ :=
  match yamlRowsLoop items 0 with
  | .error e => .error e
  | .ok rowCount =>
      match terminalErr with
      | some e => .error ("error iterating rows: " ++ e)
      | none => .ok rowCount

/-- The row/batch loop of `sqlExporter.Export` with its write oracle: a
batch write attempt whenever the accumulator reaches `B`, a final flush
on exhaustion, then the terminal cursor check.  Rows are `true` when
fetched successfully (`FormatSQLValue` is total, so there is no per-value
encode failure in this exporter). -/
def sqlLoop (writeOk : ℕ → Bool) (B : ℕ) (terminalErr : Option String) :
    List Bool → ℕ → ℕ → ℕ → ℕ → (Except String ℕ) × ℕ
  | [], rowCount, batchLen, _, w =>
      if 0 < batchLen then
        if writeOk w then
          match terminalErr with
          | some e => (.error ("error iterating rows: " ++ e), w + 1)
          | none => (.ok rowCount, w + 1)
        else (.error "error writing final batch statement: write failed", w + 1)
      else
        match terminalErr with
        | some e => (.error ("error iterating rows: " ++ e), w)
        | none => (.ok rowCount, w)
  | fetched :: rest, rowCount, batchLen, stmtCount, w =>
      if fetched = false then (.error "error reading row: fetch failed", w)
      else
        if batchLen + 1 = B then
          if writeOk w then sqlLoop writeOk B terminalErr rest (rowCount + 1) 0 (stmtCount + 1) (w + 1)
          else
            (.error ("error writing batch statement " ++ toString (stmtCount + 1) ++
               ": write failed"), w + 1)
        else sqlLoop writeOk B terminalErr rest (rowCount + 1) (batchLen + 1) stmtCount w

/-- `sqlExporter.Export` with its sink trace. -/
def sqlExportEvents (createOk : Bool) (writeOk : ℕ → Bool) (B : ℕ) (items : List Bool)
    (terminalErr : Option String) : (Except String ℕ) × List SinkEvent :=
  if createOk = false then (.error "create failed", [])
  else
    let (res, w) := sqlLoop writeOk B terminalErr items 0 0 0 0
    (res, [.opened] ++ List.replicate w .wrote ++ [.closed])

/-- The sheet-size skeleton of the XLSX row loop: only the current
sheet's data-row count is tracked, and the roll condition is phrased
against the data-row capacity (`xlsxLoop` rolls exactly when the current
sheet already holds `cap` data rows). -/
def chunkCont (cap : ℕ) : ℕ → ℕ → List ℕ
  | 0, cur => [cur]
  | n + 1, cur =>
      if cap ≤ cur then cap :: chunkCont cap n 1
      else chunkCont cap n (cur + 1)

-- DEFINITIONS-CONTINUE-HERE

-- THEOREM-ZONE-BEGINS-HERE

/-! ### Association-list lookup lemmas -/

theorem lookup_append_single {α : Type} (l : List (String × α)) (k k' : String) (v : α) :
    (l ++ [(k, v)]).lookup k' =
      ((l.lookup k').orElse (fun _ => if k' == k then some v else none)) := by
  induction l with
  | nil =>
      cases h : k' == k <;> simp [List.lookup, h]
  | cons p t ih =>
      obtain ⟨b, c⟩ := p
      cases h : k' == b <;> simp [List.lookup, h, ih]

theorem lookup_isSome_mem {α : Type} {l : List (String × α)} {k : String}
    (h : (l.lookup k).isSome = true) : ∃ v, (k, v) ∈ l := by
  induction l with
  | nil => simp [List.lookup] at h
  | cons p t ih =>
      obtain ⟨b, c⟩ := p
      cases hk : k == b with
      | true => exact ⟨c, by simp [List.mem_cons, beq_iff_eq.mp hk]⟩
      | false =>
          simp only [List.lookup, hk] at h
          obtain ⟨v, hv⟩ := ih h
          exact ⟨v, List.mem_cons_of_mem _ hv⟩

/-! ## Claims C9 and C10 -/

theorem export_hasSuffix_false (fmt : String) :
    hasSuffixStr "export" ("." ++ fmt) = false := by
  cases hx : hasSuffixStr "export" ("." ++ fmt) with
  | false => rfl
  | true =>
      exfalso
      have hsuf : '.' :: fmt.data <:+ "export".data := by
        simp [hasSuffixStr] at hx
        exact hx
      have hdot : '.' ∈ "export".data := hsuf.subset (List.mem_cons_self _ _)
      simp at hdot

/-- Claim C9 (confirmed).  The zip entry-name function satisfies the
specified equations: `zipEntryName("/a/DATA.ZIP","json") = "data.json"`,
`zipEntryName("/a/out.csv.zip","csv") = "out.csv"`, and whenever the
lower-cased base name with its `.zip` suffix stripped is empty (and the
format is not `template`, the one format without a canonical extension)
the entry name is `export.<format>`; in general, for a non-empty stripped
base that does not already end in the format's extension, the entry name
is the (lower-cased) base with `.zip` stripped and the extension
appended. -/
theorem zipEntryName_spec :
    determineZipEntryName "/a/DATA.ZIP" "json" = "data.json" ∧
    determineZipEntryName "/a/out.csv.zip" "csv" = "out.csv" ∧
    (∀ path fmt : String, fmt ≠ "template" →
      trimSuffixStr (toLowerStr (filepathBase path)) ".zip" = "" →
      determineZipEntryName path fmt = "export." ++ fmt) ∧
    (∀ path fmt : String, fmt ≠ "template" →
      trimSuffixStr (toLowerStr (filepathBase path)) ".zip" ≠ "" →
      hasSuffixStr (trimSuffixStr (toLowerStr (filepathBase path)) ".zip") ("." ++ fmt) = false →
      determineZipEntryName path fmt =
        trimSuffixStr (toLowerStr (filepathBase path)) ".zip" ++ "." ++ fmt) := by
  refine ⟨by decide, by decide, ?_, ?_⟩
  · intro path fmt hfmt hempty
    simp only [determineZipEntryName, hempty, if_pos rfl]
    rw [if_pos ⟨by simp [export_hasSuffix_false fmt], hfmt⟩]
    rfl
  · intro path fmt hfmt hne hsuf
    simp only [determineZipEntryName, if_neg hne]
    rw [if_pos ⟨by simp [hsuf], hfmt⟩]

/-- Witness for C9: the hypotheses of the general clauses hold at the
concrete inputs `("/a/.zip", "csv")` and `("/a/out", "csv")`. -/
theorem zipEntryName_spec_witness :
    determineZipEntryName "/a/.zip" "csv" = "export.csv" ∧
    determineZipEntryName "/a/out" "csv" = "out.csv" := by
  constructor
  · exact zipEntryName_spec.2.2.1 "/a/.zip" "csv" (by decide) (by decide)
  · rw [zipEntryName_spec.2.2.2 "/a/out" "csv" (by decide) (by decide) (by decide)]
    decide

/-- Claim C10 (confirmed).  `Register` normalises the format name
(trims surrounding white space, lower-cases) before inserting, but `Get`
looks the queried name up verbatim: for any registry whose keys are
normalised (as all registry keys are, since only `Register` inserts),
after a successful `Register(name, factory)`, `Get` of the normalised
name succeeds, while `Get(name)` succeeds exactly when `name` was already
in normalised (lower-case, trimmed) form. -/
theorem register_normalizes_get_does_not {α : Type} (reg : Registry α)
    (name : String) (factory : α) (reg2 : Registry α)
    (hkeys : ∀ p ∈ reg, normalizeFormat p.1 = p.1)
    (hreg : registerFormat reg name factory = some reg2) :
    (getFormat reg2 (normalizeFormat name)).isSome = true ∧
    ((getFormat reg2 name).isSome = true ↔ normalizeFormat name = name) := by
  unfold registerFormat at hreg
  by_cases habs : (reg.lookup (normalizeFormat name)).isSome
  · rw [if_pos habs] at hreg; exact absurd hreg (by simp)
  · rw [if_neg habs] at hreg
    have hreg2 : reg2 = reg ++ [(normalizeFormat name, factory)] :=
      (Option.some_inj.mp hreg).symm
    subst hreg2
    have hnone : reg.lookup (normalizeFormat name) = none := by
      cases h : reg.lookup (normalizeFormat name) with
      | none => rfl
      | some v => rw [h] at habs; simp at habs
    constructor
    · unfold getFormat
      rw [lookup_append_single, hnone]
      simp
    · unfold getFormat
      rw [lookup_append_single]
      constructor
      · intro h
        cases hl : reg.lookup name with
        | some v =>
            have hm : (reg.lookup name).isSome = true := by rw [hl]; rfl
            obtain ⟨w, hw⟩ := lookup_isSome_mem hm
            exact hkeys (name, w) hw
        | none =>
            rw [hl] at h
            simp only [Option.orElse, Option.none_orElse] at h
            by_cases hb : name == normalizeFormat name
            · exact (beq_iff_eq.mp hb).symm
            · rw [if_neg hb] at h; simp at h
      · intro h
        have hb : (name == normalizeFormat name) = true := by
          rw [beq_iff_eq]; exact h.symm
        rw [hb]
        cases hl : reg.lookup name with
        | some v => simp
        | none => simp

/-- Witness for C10: registering `" JSON "` in a registry holding key
`"csv"` succeeds, `Get "json"` then succeeds, and `Get " JSON "` fails. -/
theorem register_normalizes_get_does_not_witness :
    registerFormat [("csv", (0:ℕ))] " JSON " 1 = some [("csv", 0), ("json", 1)] ∧
    (getFormat [("csv", (0:ℕ)), ("json", 1)] (normalizeFormat " JSON ")).isSome = true ∧
    ¬ (getFormat [("csv", (0:ℕ)), ("json", 1)] " JSON ").isSome = true := by
  have h := register_normalizes_get_does_not [("csv", (0:ℕ))] " JSON " 1
      [("csv", 0), ("json", 1)] (by decide) (by decide)
  refine ⟨by decide, h.1, fun hc => absurd (h.2.mp hc) (by decide)⟩

/-! ## Claim C5 -/

/-- Claim C5 (corrected), counterexample: formatting the float64 value
`0.1 + 0.2` with the 15-significant-digit rule (`%.15g`, as applied by
`FormatCSVValue` to floats) yields `"0.3"`, and parsing that string back
as a float64 does **not** recover the original value — it yields the
binary64 nearest `3/10`, one ulp below `0.1 + 0.2`. -/
theorem float15g_roundtrip_counterexample :
    parseGoFloat (FormatCSVValue (.floatV pointOnePlusPointTwo) float8OID "" "") ≠
      some pointOnePlusPointTwo := by decide

/-- Claim C5 (corrected), amended: the 15-significant-digit rendering of
`0.1 + 0.2` is `"0.3"`, whose parse is the binary64 nearest `3/10`, a
value distinct from `0.1 + 0.2` (`= 1351079888211149 / 2^52`); the
round-trip does not hold at this value. -/
theorem float15g_of_point_three :
    FormatCSVValue (.floatV pointOnePlusPointTwo) float8OID "" "" = "0.3" ∧
    formatFloat15g pointOnePlusPointTwo = "0.3" ∧
    parseGoFloat "0.3" = some (roundB64 (mkRat 3 10)) ∧
    roundB64 (mkRat 3 10) ≠ pointOnePlusPointTwo ∧
    pointOnePlusPointTwo = mkRat 1351079888211149 4503599627370496 := by
  exact ⟨by decide, by decide, by decide, by decide, by decide⟩

/-! ## Claim C2 -/

/-- Claim C2 (corrected), counterexample: a NULL JSON/JSONB value formats
for XLSX to the string `"null"`, not to the empty cell — `FormatXLSXValue`
re-serialises before any nil check, and `json.Marshal(nil)` yields
`null`. -/
theorem null_xlsx_json_counterexample :
    FormatXLSXValue .null jsonOID "" "" = .str "null" ∧
    FormatXLSXValue .null jsonbOID "yyyy-MM-dd" "UTC" = .str "null" ∧
    GoValue.str "null" ≠ GoValue.null ∧ ("null" : String) ≠ "" := by
  refine ⟨rfl, rfl, fun h => GoValue.noConfusion h, by decide⟩

/-- Claim C2 (corrected), amended: for every wire type, a NULL input
formats to `""` in CSV, to the bare token `NULL` in SQL, to `null` in
JSON and YAML, and to an explicit empty element in XML; in XLSX it
formats to the empty cell (`nil`) for every wire type **except** JSON and
JSONB, where it formats to the text `null`. -/
theorem null_formatting_amended (oid : ℕ) (fmt tz : String) :
    FormatCSVValue .null oid fmt tz = "" ∧
    FormatSQLValue .null oid = "NULL" ∧
    marshalNoHTMLEscape (FormatJSONValue .null oid fmt tz) = .ok "null" ∧
    encodeYamlValue (FormatYAMLValue .null oid fmt tz) = .ok (.scalar "!!null" "null") ∧
    FormatXMLValue .null oid fmt tz = "" ∧
    xmlFieldTokens "c" (FormatXMLValue .null oid fmt tz) =
      [.startTag "c", .endTag "c"] ∧
    FormatXLSXValue .null oid fmt tz =
      (if oid = jsonbOID ∨ oid = jsonOID then .str "null" else .null) := by
  refine ⟨rfl, rfl, rfl, rfl, rfl, rfl, ?_⟩
  unfold FormatXLSXValue
  by_cases h1 : oid = dateOID ∨ oid = timestampOID ∨ oid = timestamptzOID
  · have h2 : ¬ (oid = jsonbOID ∨ oid = jsonOID) := by
      rcases h1 with h | h | h <;>
        simp [h, dateOID, timestampOID, timestamptzOID, jsonbOID, jsonOID]
    rw [if_pos h1, if_neg h2]
  · rw [if_neg h1]
    by_cases h2 : oid = jsonbOID ∨ oid = jsonOID
    · rw [if_pos h2, if_pos h2]; rfl
    · rw [if_neg h2, if_neg h2]; rfl

/-! ## Claim C6 -/

/-- Claim C6 (corrected), counterexample: for the layout `" dd"` the code
trims the truncated prefix, so a DATE renders as `"15"`, while the
claim's rule — truncation immediately after the latest date-token match,
with nothing else — keeps the leading space and would render `" 15"`. -/
theorem extract_trimspace_counterexample :
    specDateTokenPortion " dd" = " dd" ∧
    extractUserDateFormat " dd" = "dd" ∧
    formatValueByOID (.timeV ⟨2024, 1, 15, 10, 30, 7⟩) dateOID " dd" "" = .str "15" ∧
    goFormat (ConvertUserTimeFormat (specDateTokenPortion " dd"))
      ⟨2024, 1, 15, 10, 30, 7⟩ = " 15" ∧
    ("15" : String) ≠ " 15" := by
  exact ⟨by decide, by decide, rfl, by decide, by decide⟩

/-- Claim C6 (corrected), amended: a DATE value is formatted using only
the date-token portion of the user layout, obtained by locating the
rightmost occurrence of each of `yyyy, yy, MM, dd`, truncating the layout
immediately after the latest such match, **and trimming surrounding white
space from the truncated prefix** (when no date token occurs the layout
is used unchanged); in particular a DATE with layout
`"yyyy-MM-dd HH:mm:ss"` renders with the date-only layout `2006-01-02`
(no time component), while a TIMESTAMP with the same layout renders with
the full converted layout `2006-01-02 15:04:05`. -/
theorem date_layout_truncation_amended :
    (∀ fmt : String,
      extractUserDateFormat fmt =
        (match latestDateTokenEnd fmt with
         | none => fmt
         | some _ => trimSpaceStr (specDateTokenPortion fmt))) ∧
    (∀ (t : GoTime) (tz : String),
      formatValueByOID (.timeV t) dateOID "yyyy-MM-dd HH:mm:ss" tz =
        .str (goFormat "2006-01-02" t)) ∧
    (∀ (t : GoTime) (tz : String),
      formatValueByOID (.timeV t) timestampOID "yyyy-MM-dd HH:mm:ss" tz =
        .str (goFormat "2006-01-02 15:04:05" t)) ∧
    formatValueByOID (.timeV ⟨2024, 1, 15, 10, 30, 7⟩) dateOID
      "yyyy-MM-dd HH:mm:ss" "" = .str "2024-01-15" ∧
    formatValueByOID (.timeV ⟨2024, 1, 15, 10, 30, 7⟩) timestampOID
      "yyyy-MM-dd HH:mm:ss" "" = .str "2024-01-15 10:30:07" := by
  refine ⟨?_, ?_, ?_, rfl, rfl⟩
  · intro fmt
    unfold extractUserDateFormat specDateTokenPortion
    cases latestDateTokenEnd fmt <;> rfl
  · intro t tz; rfl
  · intro t tz; rfl

/-! ## Claim C1 -/

theorem OMap.set_of_not_mem {β : Type} (m : OMap β) (k : String) (v : β)
    (h : (m.entries.any (fun p => p.1 == k)) = false) :
    (m.set k v).entries = m.entries ++ [(k, v)] := by
  unfold OMap.set
  rw [if_neg (by simp [h])]

/-- Folding `Set` over pairwise-distinct fresh keys appends them in
order. -/
theorem keys_foldl_set {β : Type} (F : FieldDesc × GoValue → β) :
    ∀ (l : List (FieldDesc × GoValue)) (m : OMap β),
      (∀ fv ∈ l, (m.entries.any (fun q => q.1 == fv.1.Name)) = false) →
      (l.map (fun fv => fv.1.Name)).Nodup →
      (l.foldl (fun acc fv => acc.set fv.1.Name (F fv)) m).keys
        = m.keys ++ l.map (fun fv => fv.1.Name)
  | [], m, _, _ => by simp
  | fv :: rest, m, hdisj, hnodup => by
      have hme : (m.entries.any (fun q => q.1 == fv.1.Name)) = false :=
        hdisj fv (List.mem_cons_self ..)
      have hset : (m.set fv.1.Name (F fv)).entries = m.entries ++ [(fv.1.Name, F fv)] :=
        OMap.set_of_not_mem m _ _ hme
      have hnotmem : fv.1.Name ∉ rest.map (fun gv => gv.1.Name) :=
        (List.nodup_cons.mp (by simpa using hnodup)).1
      have hd : ∀ gv ∈ rest,
          (((m.set fv.1.Name (F fv)).entries).any (fun q => q.1 == gv.1.Name)) = false := by
        intro gv hgv
        rw [hset, List.any_append]
        have h1 : (m.entries.any (fun q => q.1 == gv.1.Name)) = false :=
          hdisj gv (List.mem_cons_of_mem _ hgv)
        have h2 : (fv.1.Name == gv.1.Name) = false := by
          rw [beq_eq_false_iff_ne]
          intro hEq
          exact hnotmem (hEq ▸ List.mem_map_of_mem (fun gv => gv.1.Name) hgv)
        simp [h1, h2]
      have hn : (rest.map (fun fv => fv.1.Name)).Nodup :=
        (List.nodup_cons.mp (by simpa using hnodup)).2
      calc ((fv :: rest).foldl (fun acc fv => acc.set fv.1.Name (F fv)) m).keys
          = (rest.foldl (fun acc fv => acc.set fv.1.Name (F fv))
              (m.set fv.1.Name (F fv))).keys := by simp
        _ = (m.set fv.1.Name (F fv)).keys ++ rest.map (fun fv => fv.1.Name) :=
            keys_foldl_set F rest _ hd hn
        _ = m.keys ++ (fv :: rest).map (fun fv => fv.1.Name) := by
            simp [OMap.keys, hset]

/-- The key names of the zipped field/value list are the field names
(equal lengths). -/
theorem zip_names_eq {fields : List FieldDesc} {values : List GoValue}
    (hlen : values.length = fields.length) :
    (fields.zip values).map (fun fv => fv.1.Name) = fields.map FieldDesc.Name := by
  have h1 : (fields.zip values).map Prod.fst = fields :=
    List.map_fst_zip fields values (le_of_eq hlen.symm)
  calc (fields.zip values).map (fun fv => fv.1.Name)
      = ((fields.zip values).map Prod.fst).map FieldDesc.Name := by
        rw [List.map_map]; rfl
    _ = fields.map FieldDesc.Name := by rw [h1]

/-- `(zip l₁ l₂).map (g ·.1 ·.2)` indexed: element `i` combines the `i`-th
elements of both lists. -/
theorem zipMap_getElem {α β γ : Type} (g : α → β → γ) :
    ∀ (l1 : List α) (l2 : List β) (i : ℕ),
      ((l1.zip l2).map (fun p => g p.1 p.2))[i]? =
        (l1[i]?.bind (fun a => (l2[i]?.map (fun b => g a b))))
  | [], _, _ => by simp
  | _ :: _, [], i => by cases i <;> simp
  | _ :: _, _ :: _, 0 => by simp
  | _ :: l1, _ :: l2, i + 1 => by
      simpa using zipMap_getElem g l1 l2 i

/-- First components of an `exceptMapList` whose mapper tags each result
with a key drawn from its input. -/
theorem exceptMapList_fst {α β γ : Type} (g : α → Except String (γ × β)) (key : α → γ)
    (hg : ∀ a p, g a = .ok p → p.1 = key a) :
    ∀ (l : List α) (out : List (γ × β)), exceptMapList g l = .ok out →
      out.map Prod.fst = l.map key
  | [], out, h => by
      simp [exceptMapList] at h
      simp [← h]
  | a :: rest, out, h => by
      unfold exceptMapList at h
      cases hga : g a with
      | error e => rw [hga] at h; exact absurd h (by simp)
      | ok b =>
          rw [hga] at h
          cases hrest : exceptMapList g rest with
          | error e => rw [hrest] at h; exact absurd h (by simp)
          | ok bs =>
              rw [hrest] at h
              have hout : out = b :: bs := by
                have := h
                simp at this
                exact this.symm
              subst hout
              simp only [List.map_cons]
              rw [hg a b hga, exceptMapList_fst g key hg rest bs hrest]

/-- The key order of a successfully encoded YAML row node is the ordered
map's key order. -/
theorem yamlEncodeRow_keys (fmt tz : String) (rowData : OMap DataParams)
    (node : YamlNode) (h : yamlEncodeRow fmt tz rowData = .ok node) :
    yamlMappingKeys node = rowData.keys := by
  unfold yamlEncodeRow at h
  cases hm : exceptMapList (fun kv =>
      (match encodeYamlValue
          (FormatYAMLValue kv.2.Value kv.2.ValueType fmt tz) with
      | .ok node => .ok (kv.1, node)
      | .error e => .error e : Except String (String × YamlNode))) rowData.entries with
  | error e => rw [hm] at h; exact absurd h (by simp)
  | ok pairs =>
      rw [hm] at h
      have hnode : node = .mapping pairs := by
        have := h; simp at this; exact this.symm
      subst hnode
      unfold yamlMappingKeys OMap.keys
      exact exceptMapList_fst _ Prod.fst
        (by
          intro kv p hkv
          cases he : encodeYamlValue (FormatYAMLValue kv.2.Value kv.2.ValueType fmt tz) with
          | ok n => rw [he] at hkv; simp at hkv; rw [← hkv]
          | error e => rw [he] at hkv; exact absurd hkv (by simp))
        rowData.entries pairs hm

/-- One XML field emits exactly one start tag, bearing the field name. -/
theorem xmlFieldTokens_startTags (name val : String) :
    xmlStartTags (xmlFieldTokens name val) = [name] := by
  unfold xmlFieldTokens
  by_cases h : val = ""
  · rw [if_pos h]; rfl
  · rw [if_neg h]
    by_cases hj : val.data.head? = some '\x7b' ∨ val.data.head? = some '['
    · rw [if_pos hj]; rfl
    · rw [if_neg hj]; rfl

theorem xmlStartTags_flatMap (fmt tz : String) :
    ∀ l : List (FieldDesc × GoValue),
      xmlStartTags (l.flatMap
          (fun fv => xmlFieldTokens fv.1.Name (FormatXMLValue fv.2 fv.1.DataTypeOID fmt tz)))
        = l.map (fun fv => fv.1.Name)
  | [] => by simp [xmlStartTags]
  | fv :: rest => by
      simp only [List.flatMap_cons, List.map_cons]
      unfold xmlStartTags
      rw [List.filterMap_append]
      have h1 := xmlFieldTokens_startTags fv.1.Name
          (FormatXMLValue fv.2 fv.1.DataTypeOID fmt tz)
      unfold xmlStartTags at h1
      rw [h1]
      have h2 := xmlStartTags_flatMap fmt tz rest
      unfold xmlStartTags at h2
      rw [h2]
      rfl

/-- Claim C1 (corrected), counterexample: with two columns that share the
name `x`, the ordered-map-based row builder (used by the JSON, YAML and
template exporters) collapses the duplicate — the encoded JSON object has
a single key and carries the second column's value — so the exported
column sequence `["x"]` is not the field-descriptor sequence
`["x", "x"]`. -/
theorem column_order_counterexample :
    (buildRowData [⟨"x", 23⟩, ⟨"x", 23⟩] [.intV 1, .intV 2]).keys = ["x"] ∧
    ([⟨"x", 23⟩, ⟨"x", 23⟩] : List FieldDesc).map FieldDesc.Name = ["x", "x"] ∧
    jsonEncodeRow "" "" (buildRowData [⟨"x", 23⟩, ⟨"x", 23⟩] [.intV 1, .intV 2]) =
      .ok "\x7b\n    \"x\": 2\n  \x7d" ∧
    (["x"] : List String) ≠ ["x", "x"] := by
  exact ⟨by decide, by decide, rfl, by decide⟩

/-- Claim C1 (corrected), amended: for every field-descriptor sequence
with pairwise-distinct column names (in particular any permutation of
columns) and a value row of matching arity, every representation keeps
the field order: the JSON/YAML/template ordered row maps list exactly the
field names in field order (and a successful YAML mapping node keeps that
order), the XML row opens one child element per field in field order, the
SQL column list is the quoted field names in order, and the CSV record
and XLSX cell row carry, at each position `i`, the formatted value of
field `i`.  (With duplicate column names the ordered-map-based formats —
JSON, YAML, template — collapse the duplicates instead.) -/
theorem column_order_amended (fields : List FieldDesc) (values : List GoValue)
    (fmt tz : String) (hlen : values.length = fields.length)
    (hnodup : (fields.map FieldDesc.Name).Nodup) :
    (buildRowData fields values).keys = fields.map FieldDesc.Name ∧
    (templateBuildRow fields values fmt tz).keys = fields.map FieldDesc.Name ∧
    (∀ node : YamlNode, yamlEncodeRow fmt tz (buildRowData fields values) = .ok node →
      yamlMappingKeys node = fields.map FieldDesc.Name) ∧
    xmlStartTags (xmlRowTokens fields values fmt tz) = fields.map FieldDesc.Name ∧
    sqlColumns fields = fields.map (fun fd => QuoteIdent fd.Name) ∧
    (∀ i : ℕ, (csvRecord fields values fmt tz)[i]? =
      (fields[i]?.bind (fun fd =>
        (values[i]?.map (fun v => FormatCSVValue v fd.DataTypeOID fmt tz))))) ∧
    (∀ i : ℕ, (xlsxRowCells fields values fmt tz)[i]? =
      (fields[i]?.bind (fun fd =>
        (values[i]?.map (fun v => FormatXLSXValue v fd.DataTypeOID fmt tz))))) := by
  have hzn : (fields.zip values).map (fun fv => fv.1.Name) = fields.map FieldDesc.Name :=
    zip_names_eq hlen
  have hznd : ((fields.zip values).map (fun fv => fv.1.Name)).Nodup := by
    rw [hzn]; exact hnodup
  have hkeys : (buildRowData fields values).keys = fields.map FieldDesc.Name := by
    have h := keys_foldl_set (fun fv => (⟨fv.2, fv.1.DataTypeOID⟩ : DataParams))
      (fields.zip values) ⟨[]⟩ (by intro fv _; rfl) hznd
    unfold buildRowData
    rw [h, ← hzn]
    rfl
  refine ⟨hkeys, ?_, ?_, ?_, rfl, ?_, ?_⟩
  · have h := keys_foldl_set
      (fun fv => FormatTemplateValue fv.2 fv.1.DataTypeOID fmt tz)
      (fields.zip values) ⟨[]⟩ (by intro fv _; rfl) hznd
    unfold templateBuildRow
    rw [h, ← hzn]
    rfl
  · intro node h
    rw [yamlEncodeRow_keys fmt tz _ node h, hkeys]
  · unfold xmlRowTokens
    rw [xmlStartTags_flatMap fmt tz (fields.zip values), hzn]
  · intro i
    exact zipMap_getElem (fun fd v => FormatCSVValue v fd.DataTypeOID fmt tz)
      fields values i
  · intro i
    exact zipMap_getElem (fun fd v => FormatXLSXValue v fd.DataTypeOID fmt tz)
      fields values i

/-- Witness for C1 (amended): a concrete two-column row with distinct
names keeps field order in every representation. -/
theorem column_order_amended_witness :
    (buildRowData [⟨"a", 23⟩, ⟨"b", 25⟩] [.intV 1, .str "hi"]).keys = ["a", "b"] ∧
    xmlStartTags (xmlRowTokens [⟨"a", 23⟩, ⟨"b", 25⟩] [.intV 1, .str "hi"] "" "") =
      ["a", "b"] ∧
    (csvRecord [⟨"a", 23⟩, ⟨"b", 25⟩] [.intV 1, .str "hi"] "" "")[1]? = some "hi" := by
  have h := column_order_amended [⟨"a", 23⟩, ⟨"b", 25⟩] [.intV 1, .str "hi"] "" ""
    (by decide) (by decide)
  refine ⟨?_, ?_, ?_⟩
  · rw [h.1]; rfl
  · rw [h.2.2.2.1]; rfl
  · rw [h.2.2.2.2.2.1 1]; rfl

/-! ## Chunking lemmas shared by the SQL batcher and the XLSX sheet roll -/

theorem chunkSizesAux_irrel (cap : ℕ) (hcap : 1 ≤ cap) :
    ∀ (n f1 f2 : ℕ), n ≤ f1 → n ≤ f2 → chunkSizesAux cap f1 n = chunkSizesAux cap f2 n := by
  intro n
  induction n using Nat.strong_induction_on with
  | _ n ih =>
      intro f1 f2 h1 h2
      match f1, f2 with
      | 0, 0 => rfl
      | 0, f2 + 1 =>
          have hn : n = 0 := Nat.le_zero.mp h1
          subst hn
          simp [chunkSizesAux, Nat.zero_le]
      | f1 + 1, 0 =>
          have hn : n = 0 := Nat.le_zero.mp h2
          subst hn
          simp [chunkSizesAux, Nat.zero_le]
      | f1 + 1, f2 + 1 =>
          simp only [chunkSizesAux]
          by_cases hle : n ≤ cap
          · rw [if_pos hle, if_pos hle]
          · rw [if_neg hle, if_neg hle]
            have hrec := ih (n - cap) (by omega) f1 f2 (by omega) (by omega)
            rw [hrec]

theorem chunkSizes_unfold (cap n : ℕ) (hcap : 1 ≤ cap) :
    chunkSizes cap n = if n ≤ cap then [n] else cap :: chunkSizes cap (n - cap) := by
  unfold chunkSizes
  cases n with
  | zero => simp [chunkSizesAux, Nat.zero_le]
  | succ m =>
      simp only [chunkSizesAux]
      by_cases hle : m + 1 ≤ cap
      · rw [if_pos hle, if_pos hle]
      · rw [if_neg hle, if_neg hle]
        rw [chunkSizesAux_irrel cap hcap (m + 1 - cap) m (m + 1 - cap) (by omega) (by omega)]

theorem chunkSizes_ne_nil (cap n : ℕ) (hcap : 1 ≤ cap) : chunkSizes cap n ≠ [] := by
  rw [chunkSizes_unfold cap n hcap]
  by_cases hle : n ≤ cap
  · rw [if_pos hle]; simp
  · rw [if_neg hle]; simp

theorem chunkSizes_length (cap : ℕ) (hcap : 1 ≤ cap) :
    ∀ n : ℕ, 1 ≤ n → (chunkSizes cap n).length = (n + cap - 1) / cap := by
  intro n
  induction n using Nat.strong_induction_on with
  | _ n ih =>
      intro hn
      rw [chunkSizes_unfold cap n hcap]
      by_cases hle : n ≤ cap
      · rw [if_pos hle]
        simp only [List.length_singleton]
        symm
        exact Nat.div_eq_of_lt_le (by omega) (by omega)
      · rw [if_neg hle]
        simp only [List.length_cons]
        rw [ih (n - cap) (by omega) (by omega)]
        have harith : n + cap - 1 = (n - cap + cap - 1) + cap := by omega
        rw [harith, Nat.add_div_right _ (by omega)]

theorem chunkSizes_getLast (cap : ℕ) (hcap : 1 ≤ cap) :
    ∀ n : ℕ, 1 ≤ n → (chunkSizes cap n).getLast? =
      some (if n % cap = 0 then cap else n % cap) := by
  intro n
  induction n using Nat.strong_induction_on with
  | _ n ih =>
      intro hn
      rw [chunkSizes_unfold cap n hcap]
      by_cases hle : n ≤ cap
      · rw [if_pos hle]
        by_cases heq : n = cap
        · subst heq
          rw [if_pos (Nat.mod_self n)]
          simp
        · have hmod : n % cap = n := Nat.mod_eq_of_lt (by omega)
          rw [hmod, if_neg (by omega)]
          simp
      · rw [if_neg hle]
        have htail := chunkSizes_ne_nil cap (n - cap) hcap
        obtain ⟨x, xs, hx⟩ := List.exists_cons_of_ne_nil htail
        rw [hx, List.getLast?_cons_cons, ← hx,
          ih (n - cap) (by omega) (by omega)]
        have hmod : n % cap = (n - cap) % cap := Nat.mod_eq_sub_mod (by omega)
        rw [hmod]

/-! ## Claim C3 -/

/-- The batch sizes produced by the SQL batching loop are the
`chunkSizes` chunking of the total row count (batches flush at exactly
`B`; the final partial batch flushes at exhaustion). -/
theorem sqlBatchesGo_map_length {α : Type} (B : ℕ) (hB : 1 ≤ B) :
    ∀ (rows : List α) (acc : List α), acc.length < B → acc.length + rows.length ≠ 0 →
      (sqlBatchesGo B rows acc).map List.length = chunkSizes B (acc.length + rows.length)
  | [], acc, hacc, hne => by
      have ha : ¬ acc.isEmpty = true := by
        cases acc with
        | nil => simp at hne
        | cons => simp
      simp only [sqlBatchesGo]
      rw [if_neg ha]
      rw [chunkSizes_unfold B _ hB, if_pos (by simp only [List.length_nil]; omega)]
      simp
  | r :: rest, acc, hacc, hne => by
      simp only [sqlBatchesGo]
      by_cases hfull : (acc ++ [r]).length = B
      · rw [if_pos hfull]
        have hlen : acc.length + 1 = B := by simpa using hfull
        cases rest with
        | nil =>
            simp only [sqlBatchesGo]
            rw [if_pos (by simp)]
            rw [chunkSizes_unfold B _ hB,
              if_pos (by simp only [List.length_cons, List.length_nil]; omega)]
            have harg : acc.length + ([r] : List α).length = (acc ++ [r]).length := by
              simp
            rw [harg, hfull]
            simpa using hlen
        | cons r2 rest2 =>
            rw [List.map_cons,
              sqlBatchesGo_map_length B hB (r2 :: rest2) []
                (by simp only [List.length_nil]; omega)
                (by simp only [List.length_nil, List.length_cons]; omega)]
            rw [chunkSizes_unfold B (acc.length + (r :: r2 :: rest2).length) hB,
              if_neg (by simp only [List.length_cons]; omega)]
            have h1 : (acc ++ [r]).length = B := hfull
            have h2 : acc.length + (r :: r2 :: rest2).length - B =
                ([] : List α).length + (r2 :: rest2).length := by
              simp only [List.length_nil, List.length_cons]
              omega
            rw [h1, h2]
      · rw [if_neg hfull]
        have hlt : (acc ++ [r]).length < B := by
          simp only [List.length_append, List.length_singleton] at hfull ⊢
          omega
        rw [sqlBatchesGo_map_length B hB rest (acc ++ [r]) hlt
          (by simp only [List.length_append, List.length_singleton]; omega)]
        have harg : (acc ++ [r]).length + rest.length =
            acc.length + (r :: rest).length := by
          simp only [List.length_append, List.length_cons, List.length_nil]
          omega
        rw [harg]

/-- Suffix of a concatenation. -/
theorem hasSuffixStr_of_append (a b : String) : hasSuffixStr (a ++ b) b = true := by
  simp only [hasSuffixStr, String.data_append]
  rw [List.isSuffixOf_iff_suffix]
  exact List.suffix_append _ _

/-- Every value-row line ends with its separator followed by a newline. -/
theorem sqlRowLine_suffix (r : List String) (sep : String) :
    hasSuffixStr (sqlRowLine r sep) (sep ++ "\n") = true := by
  unfold sqlRowLine
  rw [String.append_assoc]
  exact hasSuffixStr_of_append _ _

/-- Within one statement, every value row ends with `","` except the
last, which ends with `";"` (each followed by the newline the writer
emits). -/
theorem sqlValueLines_sep : ∀ records : List (List String),
    (∀ l ∈ (sqlValueLines records).dropLast, hasSuffixStr l ",\n" = true) ∧
    (records ≠ [] → ∃ l, (sqlValueLines records).getLast? = some l ∧
      hasSuffixStr l ";\n" = true)
  | [] => by
      refine ⟨by simp [sqlValueLines], by simp⟩
  | [r] => by
      refine ⟨by simp [sqlValueLines], fun _ => ⟨sqlRowLine r ";", ?_, ?_⟩⟩
      · simp [sqlValueLines]
      · have h := sqlRowLine_suffix r ";"
        simpa using h
  | r :: r2 :: rest => by
      have ih := sqlValueLines_sep (r2 :: rest)
      constructor
      · intro l hl
        have hlines : sqlValueLines (r :: r2 :: rest) =
            sqlRowLine r "," :: sqlValueLines (r2 :: rest) := rfl
        rw [hlines] at hl
        have htailne : sqlValueLines (r2 :: rest) ≠ [] := by
          cases rest <;> simp [sqlValueLines]
        rw [List.dropLast_cons_of_ne_nil htailne] at hl
        rcases List.mem_cons.mp hl with h | h
        · subst h
          have h := sqlRowLine_suffix r ","
          simpa using h
        · exact ih.1 l h
      · intro _
        obtain ⟨l, hl, hsuf⟩ := ih.2 (by simp)
        refine ⟨l, ?_, hsuf⟩
        have hlines : sqlValueLines (r :: r2 :: rest) =
            sqlRowLine r "," :: sqlValueLines (r2 :: rest) := rfl
        rw [hlines]
        obtain ⟨x, xs, hx⟩ := List.exists_cons_of_ne_nil
          (show sqlValueLines (r2 :: rest) ≠ [] by cases rest <;> simp [sqlValueLines])
        rw [hx, List.getLast?_cons_cons, ← hx, hl]

/-- Claim C3 (confirmed): for `N` rows and rows-per-statement `B ≥ 1` the
SQL exporter writes exactly `⌈N/B⌉` INSERT statements; when `N > 0` the
last statement holds `N mod B` rows (`B` when `B` divides `N`); and
within each statement every value row ends with `","` except the final
row, which ends with `";"`. -/
theorem sql_batching_spec (table : String) (cols : List String) (B : ℕ)
    (rows : List (List String)) (hB : 1 ≤ B) :
    (sqlStatements table cols B rows).length = (rows.length + B - 1) / B ∧
    (rows ≠ [] →
      ((sqlBatchesGo B rows []).map List.length).getLast? =
        some (if rows.length % B = 0 then B else rows.length % B)) ∧
    (∀ batch ∈ sqlBatchesGo B rows [],
      (∀ l ∈ (sqlValueLines batch).dropLast, hasSuffixStr l ",\n" = true) ∧
      (batch ≠ [] → ∃ l, (sqlValueLines batch).getLast? = some l ∧
        hasSuffixStr l ";\n" = true)) := by
  refine ⟨?_, ?_, ?_⟩
  · cases rows with
    | nil =>
        show (List.map _ (sqlBatchesGo B [] [])).length = _
        simp only [sqlBatchesGo]
        rw [if_pos (by simp)]
        simp only [List.map_nil, List.length_nil, List.length_nil]
        symm
        exact Nat.div_eq_of_lt (by omega)
    | cons r rest =>
        have h := sqlBatchesGo_map_length B hB (r :: rest) []
          (by simp only [List.length_nil]; omega)
          (by simp only [List.length_nil, List.length_cons]; omega)
        have hlen : (sqlStatements table cols B (r :: rest)).length =
            ((sqlBatchesGo B (r :: rest) []).map List.length).length := by
          simp [sqlStatements]
        rw [hlen, h,
          chunkSizes_length B hB ((([] : List (List String))).length + (r :: rest).length)
            (by simp)]
        simp
  · intro hne
    obtain ⟨r, rest, hr⟩ := List.exists_cons_of_ne_nil hne
    subst hr
    rw [sqlBatchesGo_map_length B hB (r :: rest) []
        (by simp only [List.length_nil]; omega)
        (by simp only [List.length_nil, List.length_cons]; omega),
      chunkSizes_getLast B hB _ (by simp only [List.length_nil, List.length_cons]; omega)]
    simp
  · intro batch _
    exact sqlValueLines_sep batch

/-- Witness for C3: three rows with batch size two give two statements,
the last with one row; the statement lines end with the specified
separators. -/
theorem sql_batching_spec_witness :
    (sqlStatements "t" ["\"c\""] 2 [["1"], ["2"], ["3"]]).length = 2 ∧
    ((sqlBatchesGo 2 [["1"], ["2"], ["3"]] []).map List.length).getLast? = some 1 ∧
    hasSuffixStr (sqlRowLine ["1"] ",") ",\n" = true := by
  have h := sql_batching_spec "t" ["\"c\""] 2 [["1"], ["2"], ["3"]] (by omega)
  refine ⟨?_, ?_, ?_⟩
  · rw [h.1]; decide
  · rw [h.2.1 (by simp)]; decide
  · have hb := (h.2.2 [["1"], ["2"]] (by decide)).1 (sqlRowLine ["1"] ",")
    apply hb
    simp [sqlValueLines]

/-! ### C4: XLSX sheet rolling -/

theorem xlsxLoop_eq_chunkCont (noHeader : Bool) (sR cap : ℕ)
    (hs : sR = if noHeader then 1 else 2) (hsum : sR + cap = xlsxMaxRows + 1) :
    ∀ (n cur : ℕ) (done : List ℕ), cur ≤ cap →
      xlsxLoop noHeader n (sR + cur) cur done = done.reverse ++ chunkCont cap n cur
  | 0, cur, done, _ => by
      simp [xlsxLoop, chunkCont]
  | n + 1, cur, done, h => by
      rcases Nat.lt_or_ge cur cap with hlt | hge
      · have hcond : ¬ (sR + cur > xlsxMaxRows) := by omega
        have hstep : xlsxLoop noHeader (n + 1) (sR + cur) cur done =
            xlsxLoop noHeader n (sR + cur + 1) (cur + 1) done := by
          simp only [xlsxLoop]
          rw [if_neg hcond]
        have hcc : chunkCont cap (n + 1) cur = chunkCont cap n (cur + 1) := by
          simp only [chunkCont]
          rw [if_neg (by omega)]
        rw [hstep, hcc,
          show sR + cur + 1 = sR + (cur + 1) from by omega]
        exact xlsxLoop_eq_chunkCont noHeader sR cap hs hsum n (cur + 1) done (by omega)
      · have hmax : xlsxMaxRows = 1048576 := rfl
        have hsR : sR ≤ 2 := by rw [hs]; cases noHeader <;> decide
        have hcur : cur = cap := le_antisymm h hge
        have hcond : sR + cur > xlsxMaxRows := by omega
        have hstep : xlsxLoop noHeader (n + 1) (sR + cur) cur done =
            xlsxLoop noHeader n ((if noHeader then 1 else 2) + 1) 1 (cur :: done) := by
          simp only [xlsxLoop]
          rw [if_pos hcond]
        have hcc : chunkCont cap (n + 1) cur = cap :: chunkCont cap n 1 := by
          simp only [chunkCont]
          rw [if_pos (by omega)]
        rw [hstep, hcc, ← hs]
        have hrec := xlsxLoop_eq_chunkCont noHeader sR cap hs hsum n 1 (cur :: done)
          (by omega)
        rw [hrec]
        simp [hcur]

theorem chunkCont_eq (cap : ℕ) (hcap : 1 ≤ cap) :
    ∀ (n cur : ℕ), cur ≤ cap →
      chunkCont cap n cur =
        if n + cur ≤ cap then [n + cur] else cap :: chunkSizes cap (n + cur - cap)
  | 0, cur, h => by
      rw [if_pos (by omega)]
      simp [chunkCont]
  | n + 1, cur, h => by
      rcases Nat.lt_or_ge cur cap with hlt | hge
      · have h1 : chunkCont cap (n + 1) cur = chunkCont cap n (cur + 1) := by
          simp only [chunkCont]
          rw [if_neg (by omega)]
        rw [h1, chunkCont_eq cap hcap n (cur + 1) (by omega),
          show n + (cur + 1) = n + 1 + cur from by omega]
      · have hcur : cur = cap := le_antisymm h hge
        have h1 : chunkCont cap (n + 1) cur = cap :: chunkCont cap n 1 := by
          simp only [chunkCont]
          rw [if_pos (by omega)]
        rw [h1, chunkCont_eq cap hcap n 1 (by omega),
          if_neg (show ¬ (n + 1 + cur ≤ cap) from by omega)]
        congr 1
        rw [show n + 1 + cur - cap = n + 1 from by omega,
          chunkSizes_unfold cap (n + 1) hcap]

theorem xlsxSheetSizes_eq_chunkSizes (noHeader : Bool) (n : ℕ) :
    xlsxSheetSizes noHeader n = chunkSizes (xlsxSheetCapacity noHeader) n := by
  have hcap : 1 ≤ xlsxSheetCapacity noHeader := by cases noHeader <;> decide
  have hsum : (if noHeader then 1 else 2) + xlsxSheetCapacity noHeader =
      xlsxMaxRows + 1 := by
    cases noHeader <;> decide
  have h0 := xlsxLoop_eq_chunkCont noHeader (if noHeader then 1 else 2)
    (xlsxSheetCapacity noHeader) rfl hsum n 0 [] (Nat.zero_le _)
  rw [Nat.add_zero] at h0
  unfold xlsxSheetSizes
  rw [h0, chunkCont_eq (xlsxSheetCapacity noHeader) hcap n 0 (Nat.zero_le _)]
  simp only [Nat.add_zero, List.reverse_nil, List.nil_append]
  rw [chunkSizes_unfold (xlsxSheetCapacity noHeader) n hcap]

theorem chunkSizes_two (cap n : ℕ) (hcap : 1 ≤ cap) (h1 : ¬ n ≤ cap)
    (h2 : n - cap ≤ cap) : chunkSizes cap n = [cap, n - cap] := by
  rw [chunkSizes_unfold cap n hcap, if_neg h1,
    chunkSizes_unfold cap (n - cap) hcap, if_pos h2]

/-- Counterexample to claim C4 as stated: with a header present
(noHeader = false) the header occupies sheet row 1, so sheet 1 holds only
1048575 data rows when 1048577 rows are exported; two sheets are still
produced, but the 1048576-th data row is the first row of sheet 2, not
the last row of sheet 1. -/
theorem xlsx_header_roll_counterexample :
    xlsxSheetSizes false 1048577 = [1048575, 2] ∧
    (xlsxSheetSizes false 1048577).head? ≠ some 1048576 := by
  have h : xlsxSheetSizes false 1048577 = [1048575, 2] := by
    rw [xlsxSheetSizes_eq_chunkSizes,
      chunkSizes_two _ _ (by decide) (by decide) (by decide)]
    decide
  refine ⟨h, ?_⟩
  rw [h]
  decide

/-- Claim C4 (corrected): the exporter rolls to a new sheet exactly when
the sheet's row count (header included) would exceed 1048576, so the
per-sheet data-row counts are the `chunkSizes` chunking of the row count
with capacity 1048576 (no header) or 1048575 (header).  Exporting
1048577 rows yields exactly 2 sheets for every header setting, but the
1048576-th data row ends sheet 1 only in no-header mode; with a header,
sheet 1 ends at data row 1048575. -/
theorem xlsx_sheet_rolling_amended :
    (∀ (noHeader : Bool) (n : ℕ),
        xlsxSheetSizes noHeader n = chunkSizes (xlsxSheetCapacity noHeader) n) ∧
    (∀ noHeader : Bool, (xlsxSheetSizes noHeader 1048577).length = 2) ∧
    xlsxSheetSizes true 1048577 = [xlsxMaxRows, 1] ∧
    xlsxSheetSizes false 1048577 = [xlsxMaxRows - 1, 2] := by
  have htrue : xlsxSheetSizes true 1048577 = [1048576, 1] := by
    rw [xlsxSheetSizes_eq_chunkSizes,
      chunkSizes_two _ _ (by decide) (by decide) (by decide)]
    decide
  have hfalse : xlsxSheetSizes false 1048577 = [1048575, 2] := by
    rw [xlsxSheetSizes_eq_chunkSizes,
      chunkSizes_two _ _ (by decide) (by decide) (by decide)]
    decide
  refine ⟨fun noHeader n => xlsxSheetSizes_eq_chunkSizes noHeader n, ?_, ?_, ?_⟩
  · intro noHeader
    cases noHeader
    · rw [hfalse]; decide
    · rw [htrue]; decide
  · rw [htrue]; decide
  · rw [hfalse]; decide

/-! ### C7: row-error index wrapping -/

theorem jsonRowsLoop_result_w_irrel : ∀ (l : List RowItem) (rowCount w w' : ℕ),
    (jsonRowsLoop (fun _ => true) l rowCount w).1 =
      (jsonRowsLoop (fun _ => true) l rowCount w').1
  | [], _, _, _ => rfl
  | item :: rest, rowCount, w, w' => by
      cases item with
      | fetchErr e => rfl
      | encodeErr e => by_cases h0 : 0 < rowCount <;> simp [jsonRowsLoop, h0]
      | good p =>
          by_cases h0 : 0 < rowCount <;>
            simp only [jsonRowsLoop, h0, if_true, if_false, if_pos, if_neg,
              not_false_eq_true] <;>
            exact jsonRowsLoop_result_w_irrel rest (rowCount + 1) _ _

theorem jsonRowsLoop_good_run :
    ∀ (pre l : List RowItem) (rowCount w : ℕ),
      (∀ x ∈ pre, ∃ p, x = RowItem.good p) →
      (jsonRowsLoop (fun _ => true) (pre ++ l) rowCount w).1 =
        (jsonRowsLoop (fun _ => true) l (rowCount + pre.length) w).1
  | [], l, rowCount, w, _ => by simp
  | item :: pre2, l, rowCount, w, h => by
      obtain ⟨p, hp⟩ := h item (by simp)
      subst hp
      rw [List.cons_append]
      by_cases h0 : 0 < rowCount
      · have hstep : jsonRowsLoop (fun _ => true) (RowItem.good p :: (pre2 ++ l))
            rowCount w = jsonRowsLoop (fun _ => true) (pre2 ++ l) (rowCount + 1) (w + 3) := by
          simp [jsonRowsLoop, h0]
        rw [hstep, jsonRowsLoop_good_run pre2 l (rowCount + 1) (w + 3)
          (fun x hx => h x (by simp [hx]))]
        simp only [List.length_cons]
        rw [show rowCount + 1 + pre2.length = rowCount + (pre2.length + 1) from by omega]
        exact jsonRowsLoop_result_w_irrel l _ (w + 3) w
      · have hstep : jsonRowsLoop (fun _ => true) (RowItem.good p :: (pre2 ++ l))
            rowCount w = jsonRowsLoop (fun _ => true) (pre2 ++ l) (rowCount + 1) (w + 2) := by
          simp [jsonRowsLoop, h0]
        rw [hstep, jsonRowsLoop_good_run pre2 l (rowCount + 1) (w + 2)
          (fun x hx => h x (by simp [hx]))]
        simp only [List.length_cons]
        rw [show rowCount + 1 + pre2.length = rowCount + (pre2.length + 1) from by omega]
        exact jsonRowsLoop_result_w_irrel l _ (w + 2) w

theorem jsonRowsLoop_encodeErr_head (rest : List RowItem) (rowCount w : ℕ) (e : String) :
    (jsonRowsLoop (fun _ => true) (RowItem.encodeErr e :: rest) rowCount w).1 =
      Except.error ("error encoding JSON for row " ++ toString rowCount ++ ": " ++ e) := by
  by_cases h0 : 0 < rowCount <;> simp [jsonRowsLoop, h0]

theorem jsonRowsLoop_fetchErr_head (rest : List RowItem) (rowCount w : ℕ) (e : String) :
    (jsonRowsLoop (fun _ => true) (RowItem.fetchErr e :: rest) rowCount w).1 =
      Except.error ("error reading row: " ++ e) := rfl

theorem jsonExportResult_loop_error (items : List RowItem) (terminalErr : Option String)
    (msg : String)
    (h : (jsonRowsLoop (fun _ => true) items 0 1).1 = Except.error msg) :
    jsonExportResult items terminalErr = Except.error msg := by
  unfold jsonExportResult jsonExportEvents jsonBody
  rcases hl : jsonRowsLoop (fun _ => true) items 0 1 with ⟨res, w⟩
  rw [hl] at h
  simp only at h
  subst h
  simp [hl]

theorem yamlRowsLoop_good_run :
    ∀ (pre l : List RowItem) (rowCount : ℕ),
      (∀ x ∈ pre, ∃ p, x = RowItem.good p) →
      yamlRowsLoop (pre ++ l) rowCount = yamlRowsLoop l (rowCount + pre.length)
  | [], l, rowCount, _ => by simp
  | item :: pre2, l, rowCount, h => by
      obtain ⟨p, hp⟩ := h item (by simp)
      subst hp
      rw [List.cons_append,
        show yamlRowsLoop (RowItem.good p :: (pre2 ++ l)) rowCount =
          yamlRowsLoop (pre2 ++ l) (rowCount + 1) from rfl,
        yamlRowsLoop_good_run pre2 l (rowCount + 1) (fun x hx => h x (by simp [hx]))]
      simp only [List.length_cons]
      rw [show rowCount + 1 + pre2.length = rowCount + (pre2.length + 1) from by omega]

theorem yamlExportResult_loop_error (items : List RowItem) (terminalErr : Option String)
    (msg : String) (h : yamlRowsLoop items 0 = Except.error msg) :
    yamlExportResult items terminalErr = Except.error msg := by
  unfold yamlExportResult
  rw [h]

/-- Counterexample to claim C7 as stated: when encoding the first row
fails, the JSON exporter's error wraps the 0-based index 0 (not the
1-based index 1), and when fetching a row fails it wraps no index at
all. -/
theorem json_row_index_counterexample :
    jsonExportResult [RowItem.encodeErr "boom"] none =
      Except.error "error encoding JSON for row 0: boom" ∧
    jsonExportResult [RowItem.encodeErr "boom"] none ≠
      Except.error "error encoding JSON for row 1: boom" ∧
    jsonExportResult [RowItem.fetchErr "oops"] none =
      Except.error "error reading row: oops" := by
  refine ⟨rfl, ?_, rfl⟩
  intro hcontra
  have : ("error encoding JSON for row 0: boom" : String) =
      "error encoding JSON for row 1: boom" := by
    have h0 : jsonExportResult [RowItem.encodeErr "boom"] none =
        Except.error "error encoding JSON for row 0: boom" := rfl
    rw [h0] at hcontra
    exact Except.error.inj hcontra
  exact absurd this (by decide)

/-- Claim C7 (corrected): when fetching or encoding row K fails after
K-1 good rows, the YAML exporter wraps K's 1-based row index in both
cases; the JSON exporter instead wraps the 0-based index K-1 on encode
failures and wraps no row index at all on fetch failures. -/
theorem row_error_index_amended (pre : List RowItem) (e : String) (rest : List RowItem)
    (terminalErr : Option String) (hpre : ∀ x ∈ pre, ∃ p, x = RowItem.good p) :
    yamlExportResult (pre ++ RowItem.fetchErr e :: rest) terminalErr =
      Except.error ("error reading row " ++ toString (pre.length + 1) ++ ": " ++ e) ∧
    yamlExportResult (pre ++ RowItem.encodeErr e :: rest) terminalErr =
      Except.error ("error encoding YAML row " ++ toString (pre.length + 1) ++ ": " ++ e) ∧
    jsonExportResult (pre ++ RowItem.fetchErr e :: rest) terminalErr =
      Except.error ("error reading row: " ++ e) ∧
    jsonExportResult (pre ++ RowItem.encodeErr e :: rest) terminalErr =
      Except.error ("error encoding JSON for row " ++ toString pre.length ++ ": " ++ e) := by
  refine ⟨?_, ?_, ?_, ?_⟩
  · apply yamlExportResult_loop_error
    rw [yamlRowsLoop_good_run pre _ 0 hpre]
    simp only [Nat.zero_add]
    rfl
  · apply yamlExportResult_loop_error
    rw [yamlRowsLoop_good_run pre _ 0 hpre]
    simp only [Nat.zero_add]
    rfl
  · apply jsonExportResult_loop_error
    rw [jsonRowsLoop_good_run pre _ 0 1 hpre]
    exact jsonRowsLoop_fetchErr_head rest (0 + pre.length) 1 e
  · apply jsonExportResult_loop_error
    rw [jsonRowsLoop_good_run pre _ 0 1 hpre,
      jsonRowsLoop_encodeErr_head rest (0 + pre.length) 1 e,
      Nat.zero_add]

/-- Witness for C7 (corrected): with one good row before the failing
row 2, YAML wraps the 1-based index 2 while JSON wraps the 0-based
index 1. -/
theorem row_error_index_amended_witness :
    yamlExportResult [RowItem.good "a", RowItem.encodeErr "boom"] none =
      Except.error "error encoding YAML row 2: boom" ∧
    jsonExportResult [RowItem.good "a", RowItem.encodeErr "boom"] none =
      Except.error "error encoding JSON for row 1: boom" := by
  have h := row_error_index_amended [RowItem.good "a"] "boom" [] none
    (by intro x hx; refine ⟨"a", ?_⟩; simpa using hx)
  exact ⟨h.2.1, h.2.2.2⟩

/-! ### C8: sink lifecycle -/

/-- Claim C8 (confirmed): whenever the sink is acquired (`CreateWriter`
succeeds), the export opens exactly one sink and the deferred `Close`
runs exactly once on every return path — including row fetch/encode
failures and write failures — for the JSON and SQL exporters' traces. -/
theorem sink_lifecycle_spec (createOk : Bool) (writeOk : ℕ → Bool)
    (items : List RowItem) (bitems : List Bool) (B : ℕ)
    (terminalErr : Option String) (h : createOk = true) :
    ((jsonExportEvents createOk writeOk items terminalErr).2.count SinkEvent.opened = 1 ∧
     (jsonExportEvents createOk writeOk items terminalErr).2.count SinkEvent.closed = 1) ∧
    ((sqlExportEvents createOk writeOk B bitems terminalErr).2.count SinkEvent.opened = 1 ∧
     (sqlExportEvents createOk writeOk B bitems terminalErr).2.count SinkEvent.closed = 1) := by
  subst h
  rcases hb : jsonBody writeOk items terminalErr with ⟨res, w⟩
  rcases hs : sqlLoop writeOk B terminalErr bitems 0 0 0 0 with ⟨res2, w2⟩
  constructor
  · constructor <;>
      simp [jsonExportEvents, hb, List.count_append, List.count_replicate,
        List.count_singleton, List.count_cons]
  · constructor <;>
      simp [sqlExportEvents, hs, List.count_append, List.count_replicate,
        List.count_singleton, List.count_cons]

/-- Witness for C8: a concrete failing export (the only write fails, the
single row's encode fails) still opens the sink once and closes it
once. -/
theorem sink_lifecycle_spec_witness :
    ((jsonExportEvents true (fun _ => false) [RowItem.encodeErr "x"] none).2.count
        SinkEvent.opened = 1 ∧
     (jsonExportEvents true (fun _ => false) [RowItem.encodeErr "x"] none).2.count
        SinkEvent.closed = 1) ∧
    ((sqlExportEvents true (fun _ => false) 1 [true] none).2.count
        SinkEvent.opened = 1 ∧
     (sqlExportEvents true (fun _ => false) 1 [true] none).2.count
        SinkEvent.closed = 1) :=
  sink_lifecycle_spec true (fun _ => false) [RowItem.encodeErr "x"] [true] 1 none rfl

end Pgxport
